import Mathlib

/-
Verification of the annotation index of src/src/mbgl/map/annotation.cpp
(mapbox-gl-native).  The C++ code maintains a manager that assigns integer
IDs to point annotations, fans each point out across the tile pyramid from
a maximum zoom down to zoom 0, and answers bounding-box queries.

Shallow embedding conventions:
- C++ `double` is idealised as `ℝ` (the projection uses `sin`/`log`/`π`,
  so the projection-dependent operations are `noncomputable`); all values
  relevant to the claims are far from rounding boundaries.
- `std::map` is an association list with unique keys; `emplace` appends a
  binding only when the key is absent (and never overwrites), `erase`
  drops the bindings of a key, iteration visits stored bindings.  The C++
  map iterates in key order while the model iterates in insertion order;
  the theorems below are stated so that they do not depend on that order.
- `uint32_t` arithmetic on the ID counter is `ℕ` reduced mod `2 ^ 32`
  (the increment `nextID_++` wraps); `double → uint32_t` conversion is
  `Int.toNat ∘ Int.floor`, which agrees with C++ truncation on the
  in-range values that occur here (out-of-range conversion is UB in C++).
- `std::shared_ptr` identity of a tile feature is modelled by tagging
  each feature with the annotation ID and tile that created it.
- the scale `1 << maxZoom` is modelled as `2 ^ maxZoom : ℕ` and the
  `int8_t` countdown loop as recursion from `maxZoom` to `0`; both agree
  with C++ for every `maxZoom` for which the shift and the conversion are
  defined (`maxZoom < 32`).
- the local tile offset narrows to a 16-bit `Coordinate` in C++ (a type
  declared outside `src/`); it is modelled as the floored integer value,
  which agrees on the in-range nonnegative offsets produced here, and no
  claim inspects offsets.
-/

namespace Mbgl

/-- Geographic point; corresponds to `LatLng` with `double` fields. -/
structure LatLng where
  latitude : ℝ
  longitude : ℝ

/-- Geographic box; corresponds to `LatLngBounds` with `sw`/`ne` corners. -/
structure LatLngBounds where
  sw : LatLng
  ne : LatLng

/-- Tile pyramid key `Tile::ID (z, x, y)`; coordinates are the unsigned tile
indices produced by the code (`uint32_t`). -/
structure TileID where
  z : ℕ
  x : ℕ
  y : ℕ
deriving DecidableEq

/-- One renderable feature of the live annotation tile layer
(`LiveTileFeature`): the local tile-space coordinate produced for one
annotation at one pyramid level, plus its resolved sprite property.
`annotationID`/`tileID` tag the feature to model `shared_ptr` identity
(each creation in `addPointAnnotations` produces one feature per
annotation and tile). -/
structure LiveTileFeature where
  annotationID : ℕ
  tileID : TileID
  coordinate : ℤ × ℤ
  sprite : String
deriving DecidableEq

/-- A named layer of a live tile is its list of features. -/
abbrev LiveTileLayer := List LiveTileFeature

/-- Tile content (`LiveTile`): named layers. -/
structure LiveTile where
  layers : List (String × LiveTileLayer)
deriving DecidableEq

/-- The fixed layer name used by the manager. -/
def layerID : String := "com.mapbox.annotations.points"

/-- Association-list lookup, the model of `std::map::find`. -/
def mapFind {α β : Type} [DecidableEq α] (k : α) : List (α × β) → Option β
  | [] => none
  | e :: rest => if e.1 = k then some e.2 else mapFind k rest

/-- Association-list `std::map::emplace`: inserts only when the key is
absent, never overwrites. -/
def mapEmplace {α β : Type} [DecidableEq α] (m : List (α × β)) (k : α) (v : β) :
    List (α × β) :=
  match mapFind k m with
  | some _ => m
  | none => m ++ [(k, v)]

/-- In-place update of the value stored under a key (models mutation
through a `std::map` iterator). -/
def mapUpdate {α β : Type} [DecidableEq α] (m : List (α × β)) (k : α) (f : β → β) :
    List (α × β) :=
  m.map (fun e => if e.1 = k then (e.1, f e.2) else e)

/-- Association-list `std::map::erase` of a key. -/
def mapErase {α β : Type} [DecidableEq α] (m : List (α × β)) (k : α) : List (α × β) :=
  m.filter (fun e => decide (e.1 ≠ k))

/-- The keys of an association list. -/
def mapKeys {α β : Type} (m : List (α × β)) : List α := m.map Prod.fst

/-- Removes the first occurrence of an element; models
`LiveTileLayer::removeFeature`, which erases one feature by identity and
is a no-op when the feature is absent. -/
def removeFirst {α : Type} [DecidableEq α] (x : α) : List α → List α
  | [] => []
  | y :: ys => if y = x then ys else y :: removeFirst x ys

/-- Model of `LiveTile::addLayer`: registers a named layer (only if absent). -/
def LiveTile.addLayer (t : LiveTile) (name : String) (l : LiveTileLayer) : LiveTile :=
  ⟨mapEmplace t.layers name l⟩

/-- Model of `getMutableLayer` followed by `LiveTileLayer::addFeature`: appends a
feature to the named layer (no-op when the layer is absent, which does not
occur on the code paths below: the layer is created with the tile). -/
def LiveTile.addFeature (t : LiveTile) (name : String) (f : LiveTileFeature) : LiveTile :=
  ⟨mapUpdate t.layers name (fun fs => fs ++ [f])⟩

/-- Model of `getMutableLayer` followed by `LiveTileLayer::removeFeature`: removes
one feature (by identity) from the named layer. -/
def LiveTile.removeFeature (t : LiveTile) (name : String) (f : LiveTileFeature) : LiveTile :=
  ⟨mapUpdate t.layers name (removeFirst f)⟩

/-- Kind tag of an annotation (`AnnotationType`). -/
inductive AnnotationType where
  | Point
  | Shape
deriving DecidableEq

/-- The annotation entity (class `Annotation` in the C++ file): immutable
kind and geometry, the per-tile weak references to the features it
produced, and the bounding box computed at construction. -/
structure AnnotationEntity where
  type : AnnotationType
  geometry : List (List LatLng)
  tileFeatures : List (TileID × List LiveTileFeature)
  bounds : LatLngBounds

/-- The `Annotation` constructor on the Point path taken by
`addPointAnnotations`: geometry `{{point}}`, bounds the degenerate box
`{getPoint(), getPoint()}` around the single point, no tile features yet.
(The Shape path is unreachable from this translation unit: no shape-adding
operation exists in the file.) -/
def AnnotationEntity.ofPoint (point : LatLng) : AnnotationEntity :=
  ⟨AnnotationType.Point, [[point]], [], ⟨point, point⟩⟩

/-- Manager state (`AnnotationManager`): the `uint32_t` ID counter, the
default point symbol, the annotation table and the tile table.  Member
initial values (counter `0`, empty tables, empty default symbol) come from
the class declaration, which is outside `src/`; the spec fixes the first
allocated ID as `0`. -/
structure AnnotationManager where
  nextID_ : ℕ
  defaultPointAnnotationSymbol : String
  annotations : List (ℕ × AnnotationEntity)
  annotationTiles : List (TileID × (List ℕ × LiveTile))

/-- A freshly constructed manager. -/
def AnnotationManager.init : AnnotationManager := ⟨0, "", [], []⟩

/-- Modulus of the `uint32_t` ID space. -/
def u32 : ℕ := 2 ^ 32

/-- Model of `AnnotationManager::setDefaultPointAnnotationSymbol`. -/
def AnnotationManager.setDefaultPointAnnotationSymbol
    (st : AnnotationManager) (symbol : String) : AnnotationManager :=
  ⟨st.nextID_, symbol, st.annotations, st.annotationTiles⟩

/-- Model of `AnnotationManager::projectPoint`: spherical Mercator forward
projection into the normalized plane. -/
noncomputable def projectPoint (point : LatLng) : ℝ × ℝ :=
  (point.longitude / 360 + 0.5,
   0.5 - 0.25 * Real.log ((1 + Real.sin (point.latitude * Real.pi / 180)) /
     (1 - Real.sin (point.latitude * Real.pi / 180))) / Real.pi)

/-- The C++ `double → uint32_t` conversion on the in-range values used by
the code (truncation; for nonnegative reals this is the floor). -/
noncomputable def toUint32 (r : ℝ) : ℕ := (⌊r⌋).toNat

/-- The sine of one degree, entering the projection of the query corners
of the spec's concrete scenario. -/
noncomputable def sinOneDeg : ℝ := Real.sin (Real.pi / 180)

/-- The Mercator log term for latitude one degree. -/
noncomputable def mercLog : ℝ := Real.log ((1 + sinOneDeg) / (1 - sinOneDeg))

/-- The body of one iteration of the per-zoom loop of
`addPointAnnotations`: record the tile `(z, x, y)` as affected, build the
feature at the local offset `extent * (p * z2 - tile)`, insert it into the
tile store (creating the tile entry and its point layer when absent, else
appending to the existing layer and contributing list), and record the
feature on the annotation's `tileFeatures` map. -/
noncomputable def fanStep (annotationID : ℕ) (sprite : String) (p : ℝ × ℝ)
    (z z2 x y : ℕ)
    (tiles : List (TileID × (List ℕ × LiveTile)))
    (tf : List (TileID × List LiveTileFeature))
    (affected : List TileID) :
    List (TileID × (List ℕ × LiveTile)) × List (TileID × List LiveTileFeature) ×
      List TileID :=
  let tileID : TileID := ⟨z, x, y⟩
  let coordinate : ℤ × ℤ :=
    (⌊(4096 : ℝ) * (p.1 * (z2 : ℝ) - (x : ℝ))⌋, ⌊(4096 : ℝ) * (p.2 * (z2 : ℝ) - (y : ℝ))⌋)
  let feature : LiveTileFeature := ⟨annotationID, tileID, coordinate, sprite⟩
  let tiles' :=
    match mapFind tileID tiles with
    | some _ =>
      mapUpdate tiles tileID
        (fun entry => (entry.1 ++ [annotationID], entry.2.addFeature layerID feature))
    | none =>
      tiles ++ [(tileID, ([annotationID], LiveTile.addLayer ⟨[]⟩ layerID [feature]))]
  (tiles', mapEmplace tf tileID [feature], affected ++ [tileID])

/-- The per-zoom loop `for (int8_t z = maxZoom; z >= 0; z--)`: runs
`fanStep` at the current level, then halves `z2`, `x`, `y` (integer
division) and descends. -/
noncomputable def fanout (annotationID : ℕ) (sprite : String) (p : ℝ × ℝ)
    (z z2 x y : ℕ)
    (tiles : List (TileID × (List ℕ × LiveTile)))
    (tf : List (TileID × List LiveTileFeature))
    (affected : List TileID) :
    List (TileID × (List ℕ × LiveTile)) × List (TileID × List LiveTileFeature) ×
      List TileID :=
  let r := fanStep annotationID sprite p z z2 x y tiles tf affected
  if z = 0 then r
  else fanout annotationID sprite p (z - 1) (z2 / 2) (x / 2) (y / 2) r.1 r.2.1 r.2.2
termination_by z

/-- Processing of one point by `addPointAnnotations`: allocate the next
ID (`nextID_++`, wrapping `uint32_t`), emplace the new Point annotation
(the `getD` default mirrors the C++ `emplace` iterator, which always
refers to a stored annotation), project the point, compute the
zoom-`maxZoom` tile coordinate by truncation, fan out across the pyramid,
and write the collected `tileFeatures` back to the stored annotation. -/
noncomputable def addOnePoint (maxZoom : ℕ) (point : LatLng) (symbol : String)
    (st : AnnotationManager) (affected : List TileID) :
    AnnotationManager × List TileID :=
  let annotationID := st.nextID_
  let annos := mapEmplace st.annotations annotationID (AnnotationEntity.ofPoint point)
  let a0 := (mapFind annotationID annos).getD (AnnotationEntity.ofPoint point)
  let z2 : ℕ := 2 ^ maxZoom
  let p := projectPoint point
  let x := toUint32 (p.1 * (z2 : ℝ))
  let y := toUint32 (p.2 * (z2 : ℝ))
  let sprite := if symbol.length ≠ 0 then symbol else st.defaultPointAnnotationSymbol
  let r := fanout annotationID sprite p maxZoom z2 x y st.annotationTiles
    a0.tileFeatures affected
  (⟨(st.nextID_ + 1) % u32, st.defaultPointAnnotationSymbol,
    mapUpdate annos annotationID (fun a => ⟨a.type, a.geometry, r.2.1, a.bounds⟩),
    r.1⟩, r.2.2)

/-- The per-point loop of `addPointAnnotations`: process each point with
`addOnePoint` (the symbol for point `i` is `symbols[i]`) and append the
allocated ID to the result vector. -/
noncomputable def addPointLoop (maxZoom : ℕ) :
    List LatLng → List String → AnnotationManager → List TileID → List ℕ →
      AnnotationManager × List TileID × List ℕ
  | [], _, st, affected, ids => (st, affected, ids)
  | point :: points, symbols, st, affected, ids =>
    let r := addOnePoint maxZoom point (symbols.headD "") st affected
    addPointLoop maxZoom points symbols.tail r.1 r.2 (ids ++ [st.nextID_])

/-- Model of `AnnotationManager::addPointAnnotations(points, symbols, map)` with
`maxZoom = map.getMaxZoom()`.  Returns the updated manager together with
the C++ return pair `(affectedTiles, annotationIDs)`.  Note the result
vector is constructed as `AnnotationIDs annotationIDs(points.size())`,
i.e. it already holds `points.size()` zero entries before the loop
`push_back`s the allocated IDs. -/
noncomputable def AnnotationManager.addPointAnnotations
    (st : AnnotationManager) (points : List LatLng) (symbols : List String)
    (maxZoom : ℕ) : AnnotationManager × List TileID × List ℕ :=
  addPointLoop maxZoom points symbols st [] (List.replicate points.length 0)

/-- Effect of removing `annotationID` on one tile entry (the body of the
per-tile loop of `removeAnnotations`): the ID is struck from the
contributing list (`util::erase_if` removes every occurrence), and if the
annotation recorded a feature for this tile, that feature is removed from
the tile's point layer.  (The `headD` default is never used: the code
asserts the recorded feature vector is nonempty and takes `features[0]`.) -/
def removedTileEntry (a : AnnotationEntity) (annotationID : ℕ)
    (entry : TileID × (List ℕ × LiveTile)) : TileID × (List ℕ × LiveTile) :=
  (entry.1,
   (entry.2.1.filter (fun i => decide (i ≠ annotationID)),
    match mapFind entry.1 a.tileFeatures with
    | some features =>
      entry.2.2.removeFeature layerID (features.headD ⟨annotationID, entry.1, (0, 0), ""⟩)
    | none => entry.2.2))

/-- One step of the per-tile loop of `removeAnnotations`: rebuild the tile
entry and record the tile as affected exactly when the annotation held a
feature reference into it. -/
def removeStep (a : AnnotationEntity) (annotationID : ℕ)
    (acc : List (TileID × (List ℕ × LiveTile)) × List TileID)
    (entry : TileID × (List ℕ × LiveTile)) :
    List (TileID × (List ℕ × LiveTile)) × List TileID :=
  (acc.1 ++ [removedTileEntry a annotationID entry],
   match mapFind entry.1 a.tileFeatures with
   | some _ => acc.2 ++ [entry.1]
   | none => acc.2)

/-- Processing of one ID by `AnnotationManager::removeAnnotations`: if the
ID is present, strike it from every tile's contributing list, remove the
recorded feature from the point layer of every tile the annotation holds a
feature reference for (recording that tile as affected), then erase the
annotation.  Absent IDs are skipped. -/
def removeOne (st : AnnotationManager) (affected : List TileID) (annotationID : ℕ) :
    AnnotationManager × List TileID :=
  match mapFind annotationID st.annotations with
  | none => (st, affected)
  | some a =>
    let r := st.annotationTiles.foldl (removeStep a annotationID) ([], affected)
    (⟨st.nextID_, st.defaultPointAnnotationSymbol,
      mapErase st.annotations annotationID, r.1⟩, r.2)

/-- Model of `AnnotationManager::removeAnnotations(ids)`: processes the IDs in
order, accumulating the affected tiles; returns the updated manager and
the affected-tile list. -/
def AnnotationManager.removeAnnotations (st : AnnotationManager) (ids : List ℕ) :
    AnnotationManager × List TileID :=
  ids.foldl (fun acc id => removeOne acc.1 acc.2 id) (st, [])

/-- The northwest corner tile of the query rectangle computed by
`getAnnotationsInBounds` (tile `y` grows downward, so it pairs the
southwest corner's `x` with the northeast corner's `y`). -/
noncomputable def nwTileOf (queryBounds : LatLngBounds) (z : ℕ) : TileID :=
  ⟨z, toUint32 ((projectPoint queryBounds.sw).1 * ((2 ^ z : ℕ) : ℝ)),
    toUint32 ((projectPoint queryBounds.ne).2 * ((2 ^ z : ℕ) : ℝ))⟩

/-- The southeast corner tile of the query rectangle computed by
`getAnnotationsInBounds`. -/
noncomputable def seTileOf (queryBounds : LatLngBounds) (z : ℕ) : TileID :=
  ⟨z, toUint32 ((projectPoint queryBounds.ne).1 * ((2 ^ z : ℕ) : ℝ)),
    toUint32 ((projectPoint queryBounds.sw).2 * ((2 ^ z : ℕ) : ℝ))⟩

/-- The boundary-tile filter of `getAnnotationsInBounds`: a candidate ID
passes when it denotes a live annotation whose cached bounds are fully
contained in the query box (absent IDs fail). -/
noncomputable def boundsFilter (annos : List (ℕ × AnnotationEntity))
    (queryBounds : LatLngBounds) (annotationID : ℕ) : Bool :=
  match mapFind annotationID annos with
  | some a =>
    decide (a.bounds.sw.latitude ≥ queryBounds.sw.latitude ∧
      a.bounds.ne.latitude ≤ queryBounds.ne.latitude ∧
      a.bounds.sw.longitude ≥ queryBounds.sw.longitude ∧
      a.bounds.ne.longitude ≤ queryBounds.ne.longitude)
  | none => false

/-- The IDs one tile entry contributes to a `getAnnotationsInBounds`
query: nothing unless the tile is at the queried zoom and inside the
rectangle `[nwTile, seTile]`; every contributing ID when the tile is
strictly interior; the bounds-filtered IDs when it is on the boundary. -/
noncomputable def queryContribution (annos : List (ℕ × AnnotationEntity))
    (queryBounds : LatLngBounds) (maxZoom : ℕ) (nwTile seTile : TileID)
    (entry : TileID × (List ℕ × LiveTile)) : List ℕ :=
  if entry.1.z = maxZoom then
    if nwTile.x ≤ entry.1.x ∧ entry.1.x ≤ seTile.x ∧
        nwTile.y ≤ entry.1.y ∧ entry.1.y ≤ seTile.y then
      if nwTile.x < entry.1.x ∧ entry.1.x < seTile.x ∧
          nwTile.y < entry.1.y ∧ entry.1.y < seTile.y then
        entry.2.1
      else
        entry.2.1.filter (boundsFilter annos queryBounds)
    else []
  else []

/-- Model of `AnnotationManager::getAnnotationsInBounds(queryBounds, map)` with
`maxZoom = map.getMaxZoom()`: scans the tile table, keeps tiles at zoom
exactly `maxZoom` inside the rectangle `[nwTile, seTile]`, accepts every
contributing ID of strictly interior tiles, and filters boundary tiles'
IDs through the precise bounds check. -/
noncomputable def AnnotationManager.getAnnotationsInBounds
    (st : AnnotationManager) (queryBounds : LatLngBounds) (maxZoom : ℕ) : List ℕ :=
  st.annotationTiles.foldl
    (fun matching entry =>
      matching ++ queryContribution st.annotations queryBounds maxZoom
        (nwTileOf queryBounds maxZoom) (seTileOf queryBounds maxZoom) entry)
    []

/-- Model of `AnnotationManager::getTile`: direct lookup of tile content. -/
def AnnotationManager.getTile (st : AnnotationManager) (id : TileID) : Option LiveTile :=
  (mapFind id st.annotationTiles).map (fun e => e.2)

/-- The sequence of IDs handed out by successive `nextID()` calls starting
from counter value `c`; each increment wraps the `uint32_t` counter. -/
def allocatedIDs (c : ℕ) : ℕ → List ℕ
  | 0 => []
  | n + 1 => c :: allocatedIDs ((c + 1) % u32) n

/-- The counter value after `n` allocations starting from `c`. -/
def counterAfter (c : ℕ) : ℕ → ℕ
  | 0 => c
  | n + 1 => counterAfter ((c + 1) % u32) n

/-- The pyramid of tiles recorded for one point whose zoom-`z` tile
coordinate is `(x, y)`: one tile per level from `z` down to `0`, halving
the coordinates (integer division) at each step down. -/
def fanList : ℕ → ℕ → ℕ → List TileID
  | 0, x, y => [⟨0, x, y⟩]
  | z + 1, x, y => ⟨z + 1, x, y⟩ :: fanList z (x / 2) (y / 2)

/-- The zoom-`Z` tile x-coordinate the code assigns to a point. -/
noncomputable def tileX (point : LatLng) (Z : ℕ) : ℕ :=
  toUint32 ((projectPoint point).1 * ((2 ^ Z : ℕ) : ℝ))

/-- The zoom-`Z` tile y-coordinate the code assigns to a point. -/
noncomputable def tileY (point : LatLng) (Z : ℕ) : ℕ :=
  toUint32 ((projectPoint point).2 * ((2 ^ Z : ℕ) : ℝ))

/-- The precise-containment condition tested by the boundary filter of
`getAnnotationsInBounds`, as a proposition: the candidate denotes a stored
annotation whose cached bounds lie inside the query box. -/
def Contained (annos : List (ℕ × AnnotationEntity)) (queryBounds : LatLngBounds)
    (annotationID : ℕ) : Prop :=
  ∃ a, mapFind annotationID annos = some a ∧
    a.bounds.sw.latitude ≥ queryBounds.sw.latitude ∧
    a.bounds.ne.latitude ≤ queryBounds.ne.latitude ∧
    a.bounds.sw.longitude ≥ queryBounds.sw.longitude ∧
    a.bounds.ne.longitude ≤ queryBounds.ne.longitude

/-- Referential invariant of the index: every annotation ID recorded in
some tile entry's contributing list is a key of the annotation table. -/
def TileIDsLive (st : AnnotationManager) : Prop :=
  ∀ e ∈ st.annotationTiles, ∀ id ∈ e.2.1, id ∈ mapKeys st.annotations

/-- Number of occurrences of `id` on contributing lists of tile entries at
zoom `z`. -/
def zCount (tiles : List (TileID × (List ℕ × LiveTile))) (z : ℕ) (id : ℕ) : ℕ :=
  (tiles.map (fun e => if e.1.z = z then e.2.1.count id else 0)).sum

/-- Indexing invariant maintained while the manager is populated through
`addPointAnnotations` only: tile keys are pairwise distinct, each
annotation ID occurs at most once among the tile entries of any one zoom
level, and every listed ID is below the counter. -/
def AddsInv (st : AnnotationManager) : Prop :=
  (mapKeys st.annotationTiles).Nodup ∧
  (∀ z id, zCount st.annotationTiles z id ≤ 1) ∧
  (∀ e ∈ st.annotationTiles, ∀ id ∈ e.2.1, id < st.nextID_)

/-- Manager states reachable from a fresh manager using only
`setDefaultPointAnnotationSymbol` and `addPointAnnotations`, with the
total allocation count kept inside the `uint32_t` ID space (the regime in
which IDs are never reused, cf. claim C8). -/
inductive ReachableByAdds : AnnotationManager → Prop
  | base : ReachableByAdds AnnotationManager.init
  | setSymbol (st : AnnotationManager) (s : String) :
      ReachableByAdds st →
      ReachableByAdds (st.setDefaultPointAnnotationSymbol s)
  | add (st : AnnotationManager) (pts : List LatLng) (syms : List String) (Z : ℕ) :
      ReachableByAdds st → st.nextID_ + pts.length < u32 →
      ReachableByAdds (st.addPointAnnotations pts syms Z).1

section Lemmas

variable {a : ℕ} {s : String} {p : ℝ × ℝ}

/-- Unfolding of `fanout` at zoom `0`: the loop body runs once and stops. -/
theorem fanout_eq_zero (a : ℕ) (s : String) (p : ℝ × ℝ) (z2 x y : ℕ)
    (tiles : List (TileID × (List ℕ × LiveTile)))
    (tf : List (TileID × List LiveTileFeature)) (affected : List TileID) :
    fanout a s p 0 z2 x y tiles tf affected = fanStep a s p 0 z2 x y tiles tf affected := by
  rw [fanout]
  simp

/-- Unfolding of `fanout` at a nonzero zoom: the loop body runs, then the
loop descends with halved scale and coordinates. -/
theorem fanout_eq_succ (a : ℕ) (s : String) (p : ℝ × ℝ) (z z2 x y : ℕ)
    (tiles : List (TileID × (List ℕ × LiveTile)))
    (tf : List (TileID × List LiveTileFeature)) (affected : List TileID) :
    fanout a s p (z + 1) z2 x y tiles tf affected =
      fanout a s p z (z2 / 2) (x / 2) (y / 2)
        (fanStep a s p (z + 1) z2 x y tiles tf affected).1
        (fanStep a s p (z + 1) z2 x y tiles tf affected).2.1
        (fanStep a s p (z + 1) z2 x y tiles tf affected).2.2 := by
  conv_lhs => rw [fanout]
  simp

/-- The affected-tiles component of `fanStep`. -/
theorem fanStep_affected (a : ℕ) (s : String) (p : ℝ × ℝ) (z z2 x y : ℕ)
    (tiles : List (TileID × (List ℕ × LiveTile)))
    (tf : List (TileID × List LiveTileFeature)) (affected : List TileID) :
    (fanStep a s p z z2 x y tiles tf affected).2.2 = affected ++ [⟨z, x, y⟩] := by
  simp [fanStep]

/-- The per-zoom loop appends exactly the pyramid `fanList z x y` to the
affected-tiles accumulator. -/
theorem fanout_affected (a : ℕ) (s : String) (p : ℝ × ℝ) (z : ℕ) :
    ∀ z2 x y tiles tf affected,
      (fanout a s p z z2 x y tiles tf affected).2.2 = affected ++ fanList z x y := by
  induction z with
  | zero =>
    intro z2 x y tiles tf affected
    rw [fanout_eq_zero, fanStep_affected]
    simp [fanList]
  | succ z ih =>
    intro z2 x y tiles tf affected
    rw [fanout_eq_succ, ih, fanStep_affected]
    simp [fanList]

/-- Processing one point advances the counter by one (wrapping). -/
theorem addOnePoint_counter (Z : ℕ) (pt : LatLng) (sym : String)
    (st : AnnotationManager) (aff : List TileID) :
    (addOnePoint Z pt sym st aff).1.nextID_ = (st.nextID_ + 1) % u32 := rfl

/-- Processing one point leaves the default symbol unchanged. -/
theorem addOnePoint_symbol (Z : ℕ) (pt : LatLng) (sym : String)
    (st : AnnotationManager) (aff : List TileID) :
    (addOnePoint Z pt sym st aff).1.defaultPointAnnotationSymbol =
      st.defaultPointAnnotationSymbol := rfl

/-- Processing one point appends the point's pyramid to the affected
accumulator. -/
theorem addOnePoint_affected (Z : ℕ) (pt : LatLng) (sym : String)
    (st : AnnotationManager) (aff : List TileID) :
    (addOnePoint Z pt sym st aff).2 = aff ++ fanList Z (tileX pt Z) (tileY pt Z) := by
  simp only [addOnePoint]
  rw [fanout_affected]
  rfl

/-- The returned ID vector of the per-point loop: the accumulator followed
by the IDs the counter hands out, one per point. -/
theorem addPointLoop_ids (Z : ℕ) (pts : List LatLng) :
    ∀ syms st affected ids,
      (addPointLoop Z pts syms st affected ids).2.2 =
        ids ++ allocatedIDs st.nextID_ pts.length := by
  induction pts with
  | nil => intro syms st affected ids; simp [addPointLoop, allocatedIDs]
  | cons pt pts ih =>
    intro syms st affected ids
    simp only [addPointLoop, ih, addOnePoint_counter, List.length_cons, allocatedIDs]
    simp

/-- The counter after the per-point loop. -/
theorem addPointLoop_counter (Z : ℕ) (pts : List LatLng) :
    ∀ syms st affected ids,
      (addPointLoop Z pts syms st affected ids).1.nextID_ =
        counterAfter st.nextID_ pts.length := by
  induction pts with
  | nil => intro syms st affected ids; simp [addPointLoop, counterAfter]
  | cons pt pts ih =>
    intro syms st affected ids
    simp only [addPointLoop, ih, addOnePoint_counter, List.length_cons, counterAfter]

/-- The affected-tiles result of the per-point loop: the accumulator
followed by each point's full pyramid, in input order. -/
theorem addPointLoop_affected (Z : ℕ) (pts : List LatLng) :
    ∀ syms st affected ids,
      (addPointLoop Z pts syms st affected ids).2.1 =
        affected ++ (pts.map (fun pt => fanList Z (tileX pt Z) (tileY pt Z))).flatten := by
  induction pts with
  | nil => intro syms st affected ids; simp [addPointLoop]
  | cons pt pts ih =>
    intro syms st affected ids
    simp only [addPointLoop, ih, addOnePoint_affected, List.map_cons, List.flatten_cons]
    simp [List.append_assoc]

/-- Without counter wrap-around, the allocated IDs are consecutive. -/
theorem allocatedIDs_no_wrap (n : ℕ) :
    ∀ c, c + n ≤ u32 → allocatedIDs c n = List.range' c n := by
  induction n with
  | zero => intro c _; simp [allocatedIDs]
  | succ n ih =>
    intro c hc
    by_cases h1 : c + 1 = u32
    · have hn : n = 0 := by omega
      subst hn
      simp [allocatedIDs, List.range']
    · have h2 : (c + 1) % u32 = c + 1 := Nat.mod_eq_of_lt (by omega)
      simp [allocatedIDs, h2, ih (c + 1) (by omega), List.range'_succ]

/-- Without counter wrap-around, the counter advances by the number of
allocations (reduced once at the very end when it reaches `2 ^ 32`). -/
theorem counterAfter_no_wrap (n : ℕ) :
    ∀ c, c < u32 → c + n ≤ u32 → counterAfter c n = (c + n) % u32 := by
  induction n with
  | zero =>
    intro c hcl _
    simp [counterAfter, Nat.mod_eq_of_lt hcl]
  | succ n ih =>
    intro c hcl hc
    by_cases h1 : c + 1 = u32
    · have hn : n = 0 := by omega
      subst hn
      rw [counterAfter, counterAfter]
    · have h2 : (c + 1) % u32 = c + 1 := Nat.mod_eq_of_lt (by omega)
      rw [counterAfter, h2, ih (c + 1) (by omega) (by omega)]
      congr 1
      omega

/-- Looking a key up after erasing it fails. -/
theorem mapFind_mapErase_self {α β : Type} [DecidableEq α] (k : α) (m : List (α × β)) :
    mapFind k (mapErase m k) = none := by
  induction m with
  | nil => rfl
  | cons e rest ih =>
    by_cases h : e.1 = k
    · simpa [mapErase, h] using ih
    · simpa [mapErase, mapFind, h] using ih

/-- Membership in a point's recorded pyramid: the tile at zoom `z ≤ Z` is
the zoom-`Z` coordinate integer-divided by `2 ^ (Z - z)`. -/
theorem fanList_mem (Z : ℕ) :
    ∀ x0 y0 z x y, (⟨z, x, y⟩ : TileID) ∈ fanList Z x0 y0 ↔
      z ≤ Z ∧ x = x0 / 2 ^ (Z - z) ∧ y = y0 / 2 ^ (Z - z) := by
  induction Z with
  | zero =>
    intro x0 y0 z x y
    simp only [fanList, List.mem_singleton]
    constructor
    · intro h
      injection h with h1 h2 h3
      subst h1
      refine ⟨le_refl _, ?_, ?_⟩
      · simpa using h2
      · simpa using h3
    · rintro ⟨hz, hx, hy⟩
      have h0 : z = 0 := Nat.le_zero.mp hz
      subst h0
      simp only [Nat.sub_self, pow_zero, Nat.div_one] at hx hy
      subst hx
      subst hy
      rfl
  | succ Z ih =>
    intro x0 y0 z x y
    have hdiv : ∀ t k : ℕ, t / 2 / 2 ^ k = t / 2 ^ (k + 1) := by
      intro t k
      rw [Nat.div_div_eq_div_mul, mul_comm, ← pow_succ]
    simp only [fanList, List.mem_cons, ih]
    constructor
    · rintro (h | ⟨hz, hx, hy⟩)
      · injection h with h1 h2 h3
        subst h1
        refine ⟨le_refl _, ?_, ?_⟩
        · simpa [Nat.sub_self] using h2
        · simpa [Nat.sub_self] using h3
      · have e : Z + 1 - z = Z - z + 1 := by omega
        exact ⟨by omega, by rw [hx, hdiv, e], by rw [hy, hdiv, e]⟩
    · rintro ⟨hz, hx, hy⟩
      by_cases h : z = Z + 1
      · subst h
        simp only [Nat.sub_self, pow_zero, Nat.div_one] at hx hy
        subst hx
        subst hy
        exact Or.inl rfl
      · have e : Z + 1 - z = Z - z + 1 := by omega
        rw [e] at hx hy
        exact Or.inr ⟨by omega, by rw [hx, hdiv], by rw [hy, hdiv]⟩

/-- Updating a key's value leaves the key list unchanged. -/
theorem mapKeys_mapUpdate {α β : Type} [DecidableEq α] (m : List (α × β)) (k : α)
    (f : β → β) : mapKeys (mapUpdate m k f) = mapKeys m := by
  induction m with
  | nil => rfl
  | cons e rest ih =>
    by_cases h : e.1 = k
    · simpa [mapUpdate, mapKeys, h] using ih
    · simpa [mapUpdate, mapKeys, h] using ih

/-- Rebuilding every tile entry through `removedTileEntry` leaves the key
list unchanged. -/
theorem mapKeys_map_removedTileEntry (a : AnnotationEntity) (id : ℕ)
    (l : List (TileID × (List ℕ × LiveTile))) :
    mapKeys (l.map (removedTileEntry a id)) = mapKeys l := by
  induction l with
  | nil => rfl
  | cons e rest ih => simp [mapKeys, removedTileEntry, ih]

/-- Closed form of the per-tile loop of `removeAnnotations`: every entry
is rebuilt by `removedTileEntry`, and the affected accumulator gains
exactly the keys of the tiles the annotation holds a feature for. -/
theorem removeStep_foldl (a : AnnotationEntity) (id : ℕ)
    (l : List (TileID × (List ℕ × LiveTile))) :
    ∀ acc, l.foldl (removeStep a id) acc =
      (acc.1 ++ l.map (removedTileEntry a id),
       acc.2 ++ (mapKeys l).filter (fun k => (mapFind k a.tileFeatures).isSome)) := by
  induction l with
  | nil => intro acc; simp [mapKeys]
  | cons e l ih =>
    intro acc
    rw [List.foldl_cons, ih]
    rcases hf : mapFind e.1 a.tileFeatures with - | fs
    · simp [removeStep, hf, mapKeys]
    · simp [removeStep, hf, mapKeys]

/-- Applying `removeOne` to an absent ID is the identity. -/
theorem removeOne_not_found (st : AnnotationManager) (aff : List TileID) (id : ℕ)
    (hf : mapFind id st.annotations = none) : removeOne st aff id = (st, aff) := by
  simp [removeOne, hf]

/-- Closed form of `removeOne` on a present ID. -/
theorem removeOne_found (st : AnnotationManager) (aff : List TileID) (id : ℕ)
    (a : AnnotationEntity) (hf : mapFind id st.annotations = some a) :
    removeOne st aff id =
      (⟨st.nextID_, st.defaultPointAnnotationSymbol, mapErase st.annotations id,
        st.annotationTiles.map (removedTileEntry a id)⟩,
       aff ++ (mapKeys st.annotationTiles).filter
         (fun k => (mapFind k a.tileFeatures).isSome)) := by
  simp only [removeOne, hf]
  rw [removeStep_foldl]
  simp

/-- The fold of `removeAnnotations` never changes the tile key list. -/
theorem removeFoldl_tile_keys (ids : List ℕ) :
    ∀ acc : AnnotationManager × List TileID,
      mapKeys ((ids.foldl (fun acc id => removeOne acc.1 acc.2 id)
        acc).1.annotationTiles) = mapKeys acc.1.annotationTiles := by
  induction ids with
  | nil => intro acc; rfl
  | cons id ids ih =>
    intro acc
    rw [List.foldl_cons, ih]
    rcases hf : mapFind id acc.1.annotations with - | a
    · rw [removeOne_not_found _ _ _ hf]
    · rw [removeOne_found _ _ _ _ hf]
      exact mapKeys_map_removedTileEntry a id acc.1.annotationTiles

/-- One `fanStep` extends the tile key list on the right (by nothing when
the tile exists, by the new tile otherwise). -/
theorem fanStep_keys (a : ℕ) (s : String) (p : ℝ × ℝ) (z z2 x y : ℕ)
    (tiles : List (TileID × (List ℕ × LiveTile)))
    (tf : List (TileID × List LiveTileFeature)) (aff : List TileID) :
    ∃ t, mapKeys (fanStep a s p z z2 x y tiles tf aff).1 = mapKeys tiles ++ t := by
  rcases hf : mapFind (⟨z, x, y⟩ : TileID) tiles with - | e
  · exact ⟨[⟨z, x, y⟩], by simp [fanStep, hf, mapKeys]⟩
  · exact ⟨[], by simp [fanStep, hf, mapKeys_mapUpdate]⟩

/-- The per-zoom loop extends the tile key list on the right. -/
theorem fanout_keys (a : ℕ) (s : String) (p : ℝ × ℝ) (z : ℕ) :
    ∀ z2 x y tiles tf aff,
      ∃ t, mapKeys (fanout a s p z z2 x y tiles tf aff).1 = mapKeys tiles ++ t := by
  induction z with
  | zero =>
    intro z2 x y tiles tf aff
    rw [fanout_eq_zero]
    exact fanStep_keys a s p 0 z2 x y tiles tf aff
  | succ z ih =>
    intro z2 x y tiles tf aff
    rw [fanout_eq_succ]
    obtain ⟨t1, h1⟩ := fanStep_keys a s p (z + 1) z2 x y tiles tf aff
    obtain ⟨t2, h2⟩ := ih (z2 / 2) (x / 2) (y / 2)
      (fanStep a s p (z + 1) z2 x y tiles tf aff).1
      (fanStep a s p (z + 1) z2 x y tiles tf aff).2.1
      (fanStep a s p (z + 1) z2 x y tiles tf aff).2.2
    exact ⟨t1 ++ t2, by rw [h2, h1, List.append_assoc]⟩

/-- Processing one point extends the tile key list on the right. -/
theorem addOnePoint_keys (Z : ℕ) (pt : LatLng) (sym : String)
    (st : AnnotationManager) (aff : List TileID) :
    ∃ t, mapKeys (addOnePoint Z pt sym st aff).1.annotationTiles =
      mapKeys st.annotationTiles ++ t := by
  obtain ⟨t, h⟩ := fanout_keys st.nextID_
    (if sym.length ≠ 0 then sym else st.defaultPointAnnotationSymbol)
    (projectPoint pt) Z (2 ^ Z)
    (toUint32 ((projectPoint pt).1 * ((2 ^ Z : ℕ) : ℝ)))
    (toUint32 ((projectPoint pt).2 * ((2 ^ Z : ℕ) : ℝ)))
    st.annotationTiles
    ((mapFind st.nextID_ (mapEmplace st.annotations st.nextID_
      (AnnotationEntity.ofPoint pt))).getD (AnnotationEntity.ofPoint pt)).tileFeatures
    aff
  exact ⟨t, h⟩

/-- The per-point loop extends the tile key list on the right. -/
theorem addPointLoop_keys (Z : ℕ) (pts : List LatLng) :
    ∀ syms st affected ids,
      ∃ t, mapKeys ((addPointLoop Z pts syms st affected ids).1.annotationTiles) =
        mapKeys st.annotationTiles ++ t := by
  induction pts with
  | nil => intro syms st affected ids; exact ⟨[], by simp [addPointLoop]⟩
  | cons pt pts ih =>
    intro syms st affected ids
    obtain ⟨t2, h2⟩ := ih syms.tail (addOnePoint Z pt (syms.headD "") st affected).1
      (addOnePoint Z pt (syms.headD "") st affected).2 (ids ++ [st.nextID_])
    obtain ⟨t1, h1⟩ := addOnePoint_keys Z pt (syms.headD "") st affected
    refine ⟨t1 ++ t2, ?_⟩
    simp only [addPointLoop]
    rw [h2, h1, List.append_assoc]

/-- The genuinely allocated IDs of one call are what follows the
`points.size()` spurious zero entries of the pre-sized result vector. -/
theorem addPointAnnotations_ids_drop (st : AnnotationManager) (pts : List LatLng)
    (syms : List String) (Z : ℕ) :
    (st.addPointAnnotations pts syms Z).2.2.drop pts.length =
      allocatedIDs st.nextID_ pts.length := by
  rw [AnnotationManager.addPointAnnotations, addPointLoop_ids]
  exact List.drop_left' (List.length_replicate pts.length 0)

/-- The full returned ID vector of one call: `points.size()` zeros, then
the allocated IDs. -/
theorem addPointAnnotations_ids (st : AnnotationManager) (pts : List LatLng)
    (syms : List String) (Z : ℕ) :
    (st.addPointAnnotations pts syms Z).2.2 =
      List.replicate pts.length 0 ++ allocatedIDs st.nextID_ pts.length := by
  rw [AnnotationManager.addPointAnnotations, addPointLoop_ids]

/-- The counter after one call. -/
theorem addPointAnnotations_counter (st : AnnotationManager) (pts : List LatLng)
    (syms : List String) (Z : ℕ) :
    (st.addPointAnnotations pts syms Z).1.nextID_ =
      counterAfter st.nextID_ pts.length := by
  rw [AnnotationManager.addPointAnnotations, addPointLoop_counter]

/-- Generic closed form of an accumulating append fold. -/
theorem foldl_append_eq {α β : Type} (g : α → List β) (l : List α) :
    ∀ acc : List β, l.foldl (fun m e => m ++ g e) acc = acc ++ (l.map g).flatten := by
  induction l with
  | nil => intro acc; simp
  | cons e l ih =>
    intro acc
    rw [List.foldl_cons, ih]
    simp [List.append_assoc]

/-- The result of `getAnnotationsInBounds` is the concatenation of the per-tile
contributions, in tile-table order. -/
theorem getAnnotationsInBounds_eq (st : AnnotationManager) (q : LatLngBounds) (Z : ℕ) :
    st.getAnnotationsInBounds q Z =
      (st.annotationTiles.map (queryContribution st.annotations q Z
        (nwTileOf q Z) (seTileOf q Z))).flatten := by
  rw [AnnotationManager.getAnnotationsInBounds, foldl_append_eq]
  simp

/-- The boundary filter succeeds exactly on `Contained` candidates. -/
theorem boundsFilter_eq_true (annos : List (ℕ × AnnotationEntity))
    (q : LatLngBounds) (id : ℕ) :
    boundsFilter annos q id = true ↔ Contained annos q id := by
  unfold boundsFilter Contained
  rcases hf : mapFind id annos with - | a
  · simp [hf]
  · simp [hf]

/-- Membership in one tile's query contribution, characterised. -/
theorem mem_queryContribution (annos : List (ℕ × AnnotationEntity))
    (q : LatLngBounds) (Z : ℕ) (nw se : TileID)
    (entry : TileID × (List ℕ × LiveTile)) (id : ℕ) :
    id ∈ queryContribution annos q Z nw se entry ↔
      entry.1.z = Z ∧
      (nw.x ≤ entry.1.x ∧ entry.1.x ≤ se.x ∧ nw.y ≤ entry.1.y ∧ entry.1.y ≤ se.y) ∧
      id ∈ entry.2.1 ∧
      ((nw.x < entry.1.x ∧ entry.1.x < se.x ∧ nw.y < entry.1.y ∧ entry.1.y < se.y) ∨
        Contained annos q id) := by
  unfold queryContribution
  by_cases h1 : entry.1.z = Z
  · by_cases h2 : nw.x ≤ entry.1.x ∧ entry.1.x ≤ se.x ∧
        nw.y ≤ entry.1.y ∧ entry.1.y ≤ se.y
    · by_cases h3 : nw.x < entry.1.x ∧ entry.1.x < se.x ∧
          nw.y < entry.1.y ∧ entry.1.y < se.y
      · simp [h1, h2, h3]
      · simp [h1, h2, h3, List.mem_filter, boundsFilter_eq_true]
    · simp [h1, h2]
  · simp [h1]

/-- Lookup after erasing a (possibly different) key. -/
theorem mapFind_mapErase {α β : Type} [DecidableEq α] (k' k : α) (m : List (α × β)) :
    mapFind k' (mapErase m k) = if k' = k then none else mapFind k' m := by
  induction m with
  | nil => simp [mapErase, mapFind]
  | cons e rest ih =>
    by_cases he : e.1 = k
    · have h1 : mapErase (e :: rest) k = mapErase rest k := by
        simp [mapErase, he]
      rw [h1, ih]
      by_cases hk : k' = k
      · simp [hk]
      · have h2 : ¬ e.1 = k' := fun h => hk (by rw [← h, he])
        simp [hk, mapFind, h2]
    · have h1 : mapErase (e :: rest) k = e :: mapErase rest k := by
        simp [mapErase, he]
      rw [h1]
      by_cases hek : e.1 = k'
      · have hk : ¬ k' = k := fun h => he (by rw [hek, h])
        simp [mapFind, hek, hk]
      · simp [mapFind, hek, ih]

/-- Membership in the affected tiles accumulated by the fold of
`removeAnnotations`. -/
theorem removeFoldl_affected_mem (ids : List ℕ) :
    ∀ (acc : AnnotationManager × List TileID) (k : TileID),
      k ∈ (ids.foldl (fun acc id => removeOne acc.1 acc.2 id) acc).2 ↔
        k ∈ acc.2 ∨ ∃ id ∈ ids, ∃ a, mapFind id acc.1.annotations = some a ∧
          k ∈ mapKeys acc.1.annotationTiles ∧
          (mapFind k a.tileFeatures).isSome = true := by
  induction ids with
  | nil => intro acc k; simp
  | cons id rest ih =>
    intro acc k
    rw [List.foldl_cons]
    rcases hf : mapFind id acc.1.annotations with - | a
    · rw [removeOne_not_found _ _ _ hf, ih]
      constructor
      · rintro (h | ⟨id', hmem, a', hfind, hk, hsome⟩)
        · exact Or.inl h
        · exact Or.inr ⟨id', List.mem_cons_of_mem _ hmem, a', hfind, hk, hsome⟩
      · rintro (h | ⟨id', hmem, a', hfind, hk, hsome⟩)
        · exact Or.inl h
        · rcases List.mem_cons.mp hmem with h' | h'
          · subst h'
            rw [hf] at hfind
            exact absurd hfind (by simp)
          · exact Or.inr ⟨id', h', a', hfind, hk, hsome⟩
    · rw [removeOne_found _ _ _ _ hf, ih]
      constructor
      · rintro (h | ⟨id', hmem, a', hfind, hk, hsome⟩)
        · rcases List.mem_append.mp h with h' | h'
          · exact Or.inl h'
          · obtain ⟨hk, hp⟩ := List.mem_filter.mp h'
            exact Or.inr ⟨id, List.mem_cons_self id rest, a, hf, hk, hp⟩
        · rw [mapFind_mapErase] at hfind
          by_cases he : id' = id
          · rw [if_pos he] at hfind
            exact absurd hfind (by simp)
          · rw [if_neg he] at hfind
            rw [mapKeys_map_removedTileEntry] at hk
            exact Or.inr ⟨id', List.mem_cons_of_mem _ hmem, a', hfind, hk, hsome⟩
      · rintro (h | ⟨id', hmem, a', hfind, hk, hsome⟩)
        · exact Or.inl (List.mem_append.mpr (Or.inl h))
        · by_cases he : id' = id
          · subst he
            rw [hf] at hfind
            injection hfind with hfind
            subst hfind
            exact Or.inl (List.mem_append.mpr (Or.inr (List.mem_filter.mpr ⟨hk, hsome⟩)))
          · rcases List.mem_cons.mp hmem with h' | h'
            · exact absurd h' he
            · refine Or.inr ⟨id', h', a', ?_, ?_, hsome⟩
              · rw [mapFind_mapErase, if_neg he]
                exact hfind
              · rw [mapKeys_map_removedTileEntry]
                exact hk

/-- A successful lookup means the key is present. -/
theorem mapFind_some_mem_keys {α β : Type} [DecidableEq α] {k : α} {m : List (α × β)}
    {v : β} (h : mapFind k m = some v) : k ∈ mapKeys m := by
  induction m with
  | nil => exact absurd h (by simp [mapFind])
  | cons e rest ih =>
    by_cases he : e.1 = k
    · exact List.mem_cons.mpr (Or.inl he.symm)
    · rw [mapFind, if_neg he] at h
      exact List.mem_cons.mpr (Or.inr (ih h))

/-- The keys after erasing `k` are the old keys without `k`. -/
theorem mapKeys_mapErase {α β : Type} [DecidableEq α] (m : List (α × β)) (k : α) :
    mapKeys (mapErase m k) = (mapKeys m).filter (fun k' => decide (k' ≠ k)) := by
  induction m with
  | nil => rfl
  | cons e rest ih =>
    by_cases he : e.1 = k
    · simpa [mapErase, mapKeys, he] using ih
    · simpa [mapErase, mapKeys, he] using ih

/-- Old keys survive an emplace. -/
theorem mapKeys_mapEmplace_mono {α β : Type} [DecidableEq α] {k' : α}
    (m : List (α × β)) (k : α) (v : β) (h : k' ∈ mapKeys m) :
    k' ∈ mapKeys (mapEmplace m k v) := by
  unfold mapEmplace
  rcases mapFind k m with - | w
  · simpa [mapKeys] using Or.inl h
  · exact h

/-- The emplaced key is present afterwards. -/
theorem mapKeys_mapEmplace_self {α β : Type} [DecidableEq α] (m : List (α × β))
    (k : α) (v : β) : k ∈ mapKeys (mapEmplace m k v) := by
  unfold mapEmplace
  rcases hf : mapFind k m with - | w
  · simp [mapKeys]
  · exact mapFind_some_mem_keys hf

/-- Any ID on a contributing list after one `fanStep` was already on some
contributing list or is the currently added annotation's ID. -/
theorem fanStep_contrib (a : ℕ) (s : String) (p : ℝ × ℝ) (z z2 x y : ℕ)
    (tiles : List (TileID × (List ℕ × LiveTile)))
    (tf : List (TileID × List LiveTileFeature)) (aff : List TileID)
    (e' : TileID × (List ℕ × LiveTile)) (id' : ℕ)
    (he : e' ∈ (fanStep a s p z z2 x y tiles tf aff).1) (hid : id' ∈ e'.2.1) :
    (∃ e ∈ tiles, id' ∈ e.2.1) ∨ id' = a := by
  rcases hf : mapFind (⟨z, x, y⟩ : TileID) tiles with - | w
  · simp only [fanStep, hf] at he
    rcases List.mem_append.mp he with h | h
    · exact Or.inl ⟨e', h, hid⟩
    · rw [List.mem_singleton] at h
      subst h
      simp only [List.mem_singleton] at hid
      exact Or.inr hid
  · simp only [fanStep, hf, mapUpdate, List.mem_map] at he
    obtain ⟨e, he', heq⟩ := he
    by_cases hk : e.1 = (⟨z, x, y⟩ : TileID)
    · rw [if_pos hk] at heq
      subst heq
      simp only at hid
      rcases List.mem_append.mp hid with h | h
      · exact Or.inl ⟨e, he', h⟩
      · exact Or.inr (List.mem_singleton.mp h)
    · rw [if_neg hk] at heq
      subst heq
      exact Or.inl ⟨e, he', hid⟩

/-- Any ID on a contributing list after the per-zoom loop was already on
some contributing list or is the currently added annotation's ID. -/
theorem fanout_contrib (a : ℕ) (s : String) (p : ℝ × ℝ) (z : ℕ) :
    ∀ z2 x y tiles tf aff e' id',
      e' ∈ (fanout a s p z z2 x y tiles tf aff).1 → id' ∈ e'.2.1 →
      (∃ e ∈ tiles, id' ∈ e.2.1) ∨ id' = a := by
  induction z with
  | zero =>
    intro z2 x y tiles tf aff e' id' he hid
    rw [fanout_eq_zero] at he
    exact fanStep_contrib a s p 0 z2 x y tiles tf aff e' id' he hid
  | succ z ih =>
    intro z2 x y tiles tf aff e' id' he hid
    rw [fanout_eq_succ] at he
    rcases ih (z2 / 2) (x / 2) (y / 2) _ _ _ e' id' he hid with ⟨e, hem, hein⟩ | h
    · exact fanStep_contrib a s p (z + 1) z2 x y tiles tf aff e id' hem hein
    · exact Or.inr h

/-- Keys of the annotation table after processing one point: the old keys
survive and the allocated ID is present. -/
theorem addOnePoint_annotations_keys (Z : ℕ) (pt : LatLng) (sym : String)
    (st : AnnotationManager) (aff : List TileID) :
    (∀ k, k ∈ mapKeys st.annotations →
      k ∈ mapKeys (addOnePoint Z pt sym st aff).1.annotations) ∧
    st.nextID_ ∈ mapKeys (addOnePoint Z pt sym st aff).1.annotations := by
  have hkeys : mapKeys (addOnePoint Z pt sym st aff).1.annotations =
      mapKeys (mapEmplace st.annotations st.nextID_ (AnnotationEntity.ofPoint pt)) :=
    mapKeys_mapUpdate (mapEmplace st.annotations st.nextID_
      (AnnotationEntity.ofPoint pt)) st.nextID_
      (fun a => ⟨a.type, a.geometry,
        (fanout st.nextID_
          (if sym.length ≠ 0 then sym else st.defaultPointAnnotationSymbol)
          (projectPoint pt) Z (2 ^ Z)
          (toUint32 ((projectPoint pt).1 * ((2 ^ Z : ℕ) : ℝ)))
          (toUint32 ((projectPoint pt).2 * ((2 ^ Z : ℕ) : ℝ)))
          st.annotationTiles
          ((mapFind st.nextID_ (mapEmplace st.annotations st.nextID_
            (AnnotationEntity.ofPoint pt))).getD (AnnotationEntity.ofPoint pt)).tileFeatures
          aff).2.1, a.bounds⟩)
  constructor
  · intro k hk
    rw [hkeys]
    exact mapKeys_mapEmplace_mono st.annotations st.nextID_ _ hk
  · rw [hkeys]
    exact mapKeys_mapEmplace_self st.annotations st.nextID_ _

/-- Processing one point preserves the referential invariant. -/
theorem addOnePoint_tileIDsLive (Z : ℕ) (pt : LatLng) (sym : String)
    (st : AnnotationManager) (aff : List TileID) (h : TileIDsLive st) :
    TileIDsLive (addOnePoint Z pt sym st aff).1 := by
  intro e' he' id' hid'
  have hc := fanout_contrib st.nextID_
    (if sym.length ≠ 0 then sym else st.defaultPointAnnotationSymbol)
    (projectPoint pt) Z (2 ^ Z)
    (toUint32 ((projectPoint pt).1 * ((2 ^ Z : ℕ) : ℝ)))
    (toUint32 ((projectPoint pt).2 * ((2 ^ Z : ℕ) : ℝ)))
    st.annotationTiles
    ((mapFind st.nextID_ (mapEmplace st.annotations st.nextID_
      (AnnotationEntity.ofPoint pt))).getD (AnnotationEntity.ofPoint pt)).tileFeatures
    aff e' id' he' hid'
  rcases hc with ⟨e, hem, hein⟩ | hnew
  · exact (addOnePoint_annotations_keys Z pt sym st aff).1 id' (h e hem id' hein)
  · subst hnew
    exact (addOnePoint_annotations_keys Z pt sym st aff).2

/-- The per-point loop preserves the referential invariant. -/
theorem addPointLoop_tileIDsLive (Z : ℕ) (pts : List LatLng) :
    ∀ syms st affected ids, TileIDsLive st →
      TileIDsLive (addPointLoop Z pts syms st affected ids).1 := by
  induction pts with
  | nil => intro syms st affected ids h; exact h
  | cons pt pts ih =>
    intro syms st affected ids h
    exact ih syms.tail _ _ _ (addOnePoint_tileIDsLive Z pt (syms.headD "") st affected h)

/-- Applying `removeOne` preserves the referential invariant. -/
theorem removeOne_tileIDsLive (st : AnnotationManager) (aff : List TileID) (id : ℕ)
    (h : TileIDsLive st) : TileIDsLive (removeOne st aff id).1 := by
  rcases hf : mapFind id st.annotations with - | a
  · rw [removeOne_not_found _ _ _ hf]
    exact h
  · rw [removeOne_found _ _ _ _ hf]
    intro e' he' id' hid'
    simp only [List.mem_map] at he'
    obtain ⟨e, hem, heq⟩ := he'
    subst heq
    simp only [removedTileEntry, List.mem_filter, decide_eq_true_eq] at hid'
    obtain ⟨hin, hne⟩ := hid'
    show id' ∈ mapKeys (mapErase st.annotations id)
    rw [mapKeys_mapErase, List.mem_filter]
    exact ⟨h e hem id' hin, by simpa using hne⟩

/-- The fold of `removeAnnotations` preserves the referential invariant. -/
theorem removeFoldl_tileIDsLive (ids : List ℕ) :
    ∀ acc : AnnotationManager × List TileID, TileIDsLive acc.1 →
      TileIDsLive ((ids.foldl (fun acc id => removeOne acc.1 acc.2 id) acc).1) := by
  induction ids with
  | nil => intro acc h; exact h
  | cons id rest ih =>
    intro acc h
    rw [List.foldl_cons]
    exact ih _ (removeOne_tileIDsLive acc.1 acc.2 id h)

/-- A failed lookup means the key is absent. -/
theorem mapFind_none_not_mem {α β : Type} [DecidableEq α] {k : α} {m : List (α × β)}
    (h : mapFind k m = none) : k ∉ mapKeys m := by
  induction m with
  | nil => simp [mapKeys]
  | cons e rest ih =>
    by_cases he : e.1 = k
    · rw [mapFind, if_pos he] at h
      exact absurd h (by simp)
    · rw [mapFind, if_neg he] at h
      intro hmem
      rcases List.mem_cons.mp hmem with h' | h'
      · exact he h'.symm
      · exact ih h h'

/-- Updating an absent key changes nothing. -/
theorem mapUpdate_not_mem {α β : Type} [DecidableEq α] {k : α} (m : List (α × β))
    (f : β → β) (h : k ∉ mapKeys m) : mapUpdate m k f = m := by
  induction m with
  | nil => rfl
  | cons e rest ih =>
    have he : ¬ e.1 = k := fun h' => h (List.mem_cons.mpr (Or.inl h'.symm))
    have hr : k ∉ mapKeys rest := fun h' => h (List.mem_cons.mpr (Or.inr h'))
    show (if e.1 = k then (e.1, f e.2) else e) :: mapUpdate rest k f = e :: rest
    rw [if_neg he, ih hr]

/-- The count `zCount` distributes over appending tile lists. -/
theorem zCount_append (l1 l2 : List (TileID × (List ℕ × LiveTile))) (z id : ℕ) :
    zCount (l1 ++ l2) z id = zCount l1 z id + zCount l2 z id := by
  simp [zCount]

/-- The count `zCount` on a cons. -/
theorem zCount_cons (e : TileID × (List ℕ × LiveTile))
    (l : List (TileID × (List ℕ × LiveTile))) (z id : ℕ) :
    zCount (e :: l) z id =
      (if e.1.z = z then e.2.1.count id else 0) + zCount l z id := by
  simp [zCount]

/-- Appending one ID to the contributing list of one present key raises
`zCount` by exactly the matching indicator. -/
theorem zCount_update (tiles : List (TileID × (List ℕ × LiveTile))) (tid : TileID)
    (a : ℕ) (f : (List ℕ × LiveTile) → LiveTile) (z' id : ℕ)
    (hnd : (mapKeys tiles).Nodup) (hf : mapFind tid tiles ≠ none) :
    zCount (mapUpdate tiles tid (fun v => (v.1 ++ [a], f v))) z' id =
      zCount tiles z' id + (if id = a ∧ z' = tid.z then 1 else 0) := by
  induction tiles with
  | nil => simp [mapFind] at hf
  | cons e rest ih =>
    have hcons : mapUpdate (e :: rest) tid (fun v => (v.1 ++ [a], f v)) =
        (if e.1 = tid then (e.1, (e.2.1 ++ [a], f e.2)) else e) ::
          mapUpdate rest tid (fun v => (v.1 ++ [a], f v)) := by
      simp [mapUpdate]
    rw [hcons]
    by_cases he : e.1 = tid
    · have hnr : tid ∉ mapKeys rest := by
        rw [← he]
        exact (List.nodup_cons.mp hnd).1
      rw [if_pos he, mapUpdate_not_mem rest _ hnr, zCount_cons, zCount_cons]
      simp only
      have hcount : (e.2.1 ++ [a]).count id =
          e.2.1.count id + (if id = a then 1 else 0) := by
        rw [List.count_append, List.count_singleton']
        by_cases ha : id = a
        · subst ha; simp
        · have ha' : ¬ a = id := fun hh => ha hh.symm
          simp [ha, ha']
      rw [hcount, he]
      by_cases hz : tid.z = z'
      · by_cases ha : id = a
        · simp [hz, ha]
          omega
        · simp [hz, ha]
      · have hz' : ¬ (id = a ∧ z' = tid.z) := fun hh => hz hh.2.symm
        simp [hz, hz']
    · rw [if_neg he, zCount_cons, zCount_cons]
      rw [mapFind, if_neg he] at hf
      rw [ih (List.nodup_cons.mp hnd).2 hf]
      omega

/-- The count `zCount` over one `fanStep`: the added annotation gains one occurrence
at exactly the processed zoom; nothing else changes. -/
theorem fanStep_zCount (a : ℕ) (s : String) (p : ℝ × ℝ) (z z2 x y : ℕ)
    (tiles : List (TileID × (List ℕ × LiveTile)))
    (tf : List (TileID × List LiveTileFeature)) (aff : List TileID) (z' id : ℕ)
    (hnd : (mapKeys tiles).Nodup) :
    zCount (fanStep a s p z z2 x y tiles tf aff).1 z' id =
      zCount tiles z' id + (if id = a ∧ z' = z then 1 else 0) := by
  rcases hfind : mapFind (⟨z, x, y⟩ : TileID) tiles with - | w
  · simp only [fanStep, hfind]
    rw [zCount_append, zCount_cons]
    have h0 : zCount ([] : List (TileID × (List ℕ × LiveTile))) z' id = 0 := rfl
    have hz0 : (⟨z, x, y⟩ : TileID).z = z := rfl
    rw [h0, hz0]
    by_cases ha : id = a
    · subst ha
      by_cases hz : z = z'
      · subst hz
        simp
      · have h2 : ¬ (z' = z) := fun hh => hz hh.symm
        simp [hz, h2]
    · have h2 : ¬ (id = a ∧ z' = z) := fun hh => ha hh.1
      have h3 : List.count id [a] = 0 := by
        rw [List.count_singleton']
        have ha2 : ¬ a = id := fun hh => ha hh.symm
        simp [ha2]
      rw [if_neg h2, h3]
      simp
  · simp only [fanStep, hfind]
    exact zCount_update tiles ⟨z, x, y⟩ a
      (fun v => LiveTile.addFeature v.2 layerID
        ⟨a, ⟨z, x, y⟩,
          (⌊(4096 : ℝ) * (p.1 * (z2 : ℝ) - (x : ℝ))⌋,
           ⌊(4096 : ℝ) * (p.2 * (z2 : ℝ) - (y : ℝ))⌋), s⟩) z' id hnd
      (by rw [hfind]; exact fun h => Option.noConfusion h)

/-- One `fanStep` keeps the tile keys pairwise distinct. -/
theorem fanStep_keys_nodup (a : ℕ) (s : String) (p : ℝ × ℝ) (z z2 x y : ℕ)
    (tiles : List (TileID × (List ℕ × LiveTile)))
    (tf : List (TileID × List LiveTileFeature)) (aff : List TileID)
    (hnd : (mapKeys tiles).Nodup) :
    (mapKeys (fanStep a s p z z2 x y tiles tf aff).1).Nodup := by
  rcases hfind : mapFind (⟨z, x, y⟩ : TileID) tiles with - | w
  · simp only [fanStep, hfind]
    have hnm := mapFind_none_not_mem hfind
    simp only [mapKeys, List.map_append] at hnd hnm ⊢
    simp [List.nodup_append, hnd, hnm]
  · simp only [fanStep, hfind]
    rw [mapKeys_mapUpdate]
    exact hnd

/-- The per-zoom loop keeps the tile keys pairwise distinct. -/
theorem fanout_keys_nodup (a : ℕ) (s : String) (p : ℝ × ℝ) (z : ℕ) :
    ∀ z2 x y tiles tf aff, (mapKeys tiles).Nodup →
      (mapKeys (fanout a s p z z2 x y tiles tf aff).1).Nodup := by
  induction z with
  | zero =>
    intro z2 x y tiles tf aff hnd
    rw [fanout_eq_zero]
    exact fanStep_keys_nodup a s p 0 z2 x y tiles tf aff hnd
  | succ z ih =>
    intro z2 x y tiles tf aff hnd
    rw [fanout_eq_succ]
    exact ih (z2 / 2) (x / 2) (y / 2) _ _ _
      (fanStep_keys_nodup a s p (z + 1) z2 x y tiles tf aff hnd)

/-- The count `zCount` over the whole per-zoom loop: the added annotation gains one
occurrence at every zoom from the starting level down to `0`. -/
theorem fanout_zCount (a : ℕ) (s : String) (p : ℝ × ℝ) (z : ℕ) :
    ∀ z2 x y tiles tf aff z' id, (mapKeys tiles).Nodup →
      zCount (fanout a s p z z2 x y tiles tf aff).1 z' id =
        zCount tiles z' id + (if id = a ∧ z' ≤ z then 1 else 0) := by
  induction z with
  | zero =>
    intro z2 x y tiles tf aff z' id hnd
    rw [fanout_eq_zero, fanStep_zCount a s p 0 z2 x y tiles tf aff z' id hnd]
    simp [Nat.le_zero]
  | succ z ih =>
    intro z2 x y tiles tf aff z' id hnd
    rw [fanout_eq_succ,
      ih (z2 / 2) (x / 2) (y / 2) (fanStep a s p (z + 1) z2 x y tiles tf aff).1
        (fanStep a s p (z + 1) z2 x y tiles tf aff).2.1
        (fanStep a s p (z + 1) z2 x y tiles tf aff).2.2 z' id
        (fanStep_keys_nodup a s p (z + 1) z2 x y tiles tf aff hnd),
      fanStep_zCount a s p (z + 1) z2 x y tiles tf aff z' id hnd]
    split_ifs <;> omega

/-- A fresh ID (at or above every listed ID's bound) occurs on no
contributing list. -/
theorem zCount_fresh_zero (tiles : List (TileID × (List ℕ × LiveTile))) (z c : ℕ)
    (h : ∀ e ∈ tiles, ∀ id' ∈ e.2.1, id' < c) : zCount tiles z c = 0 := by
  induction tiles with
  | nil => rfl
  | cons e rest ih =>
    rw [zCount_cons, ih (fun e' he' => h e' (List.mem_cons_of_mem _ he'))]
    have h0 : e.2.1.count c = 0 :=
      List.count_eq_zero.mpr
        (fun hc => lt_irrefl c (h e (List.mem_cons_self e rest) c hc))
    simp [h0]

/-- Processing one point preserves the adds-only indexing invariant, given
one free slot in the ID space. -/
theorem addOnePoint_AddsInv (Z : ℕ) (pt : LatLng) (sym : String)
    (st : AnnotationManager) (aff : List TileID)
    (h : AddsInv st) (hlt : st.nextID_ + 1 < u32) :
    AddsInv (addOnePoint Z pt sym st aff).1 := by
  obtain ⟨hnd, hcnt, hbelow⟩ := h
  refine ⟨?_, ?_, ?_⟩
  · exact fanout_keys_nodup st.nextID_
      (if sym.length ≠ 0 then sym else st.defaultPointAnnotationSymbol)
      (projectPoint pt) Z (2 ^ Z)
      (toUint32 ((projectPoint pt).1 * ((2 ^ Z : ℕ) : ℝ)))
      (toUint32 ((projectPoint pt).2 * ((2 ^ Z : ℕ) : ℝ)))
      st.annotationTiles
      ((mapFind st.nextID_ (mapEmplace st.annotations st.nextID_
        (AnnotationEntity.ofPoint pt))).getD (AnnotationEntity.ofPoint pt)).tileFeatures
      aff hnd
  · intro z id
    have heq : zCount (addOnePoint Z pt sym st aff).1.annotationTiles z id =
        zCount st.annotationTiles z id +
          (if id = st.nextID_ ∧ z ≤ Z then 1 else 0) :=
      fanout_zCount st.nextID_
        (if sym.length ≠ 0 then sym else st.defaultPointAnnotationSymbol)
        (projectPoint pt) Z (2 ^ Z)
        (toUint32 ((projectPoint pt).1 * ((2 ^ Z : ℕ) : ℝ)))
        (toUint32 ((projectPoint pt).2 * ((2 ^ Z : ℕ) : ℝ)))
        st.annotationTiles
        ((mapFind st.nextID_ (mapEmplace st.annotations st.nextID_
          (AnnotationEntity.ofPoint pt))).getD (AnnotationEntity.ofPoint pt)).tileFeatures
        aff z id hnd
    rw [heq]
    by_cases hid : id = st.nextID_
    · subst hid
      rw [zCount_fresh_zero st.annotationTiles z _ hbelow]
      split_ifs <;> omega
    · have hno : ¬ (id = st.nextID_ ∧ z ≤ Z) := fun hh => hid hh.1
      rw [if_neg hno]
      simpa using hcnt z id
  · intro e' he' id' hid'
    have hc : (addOnePoint Z pt sym st aff).1.nextID_ = st.nextID_ + 1 := by
      rw [addOnePoint_counter]
      exact Nat.mod_eq_of_lt hlt
    rw [hc]
    rcases fanout_contrib st.nextID_
        (if sym.length ≠ 0 then sym else st.defaultPointAnnotationSymbol)
        (projectPoint pt) Z (2 ^ Z)
        (toUint32 ((projectPoint pt).1 * ((2 ^ Z : ℕ) : ℝ)))
        (toUint32 ((projectPoint pt).2 * ((2 ^ Z : ℕ) : ℝ)))
        st.annotationTiles
        ((mapFind st.nextID_ (mapEmplace st.annotations st.nextID_
          (AnnotationEntity.ofPoint pt))).getD (AnnotationEntity.ofPoint pt)).tileFeatures
        aff e' id' he' hid' with ⟨e, hem, hein⟩ | hnew
    · exact lt_trans (hbelow e hem id' hein) (Nat.lt_succ_self _)
    · omega

/-- The per-point loop preserves the adds-only indexing invariant. -/
theorem addPointLoop_AddsInv (Z : ℕ) (pts : List LatLng) :
    ∀ syms st affected ids, AddsInv st → st.nextID_ + pts.length < u32 →
      AddsInv (addPointLoop Z pts syms st affected ids).1 := by
  induction pts with
  | nil => intro syms st affected ids h _; exact h
  | cons pt pts ih =>
    intro syms st affected ids h hc
    simp only [List.length_cons] at hc
    simp only [addPointLoop]
    apply ih syms.tail _ _ _
      (addOnePoint_AddsInv Z pt (syms.headD "") st affected h (by omega))
    rw [addOnePoint_counter, Nat.mod_eq_of_lt (by omega)]
    omega

/-- Every adds-only reachable state satisfies the indexing invariant. -/
theorem reachable_AddsInv {st : AnnotationManager} (h : ReachableByAdds st) :
    AddsInv st := by
  induction h with
  | base =>
    refine ⟨List.nodup_nil, fun z id => ?_, fun e he => ?_⟩
    · show zCount [] z id ≤ 1
      simp [zCount]
    · simp [AnnotationManager.init] at he
  | setSymbol st s hr ih => exact ih
  | add st pts syms Z hr hcond ih =>
    exact addPointLoop_AddsInv Z pts syms st [] (List.replicate pts.length 0) ih hcond

/-- Each ID occurs in a query result at most as often as it occurs among
the tile entries of the queried zoom. -/
theorem query_count_le (st : AnnotationManager) (q : LatLngBounds) (Z : ℕ) (id : ℕ) :
    (st.getAnnotationsInBounds q Z).count id ≤ zCount st.annotationTiles Z id := by
  rw [getAnnotationsInBounds_eq, List.count_flatten, List.map_map]
  unfold zCount
  apply List.sum_le_sum
  intro e he
  simp only [Function.comp]
  unfold queryContribution
  split_ifs <;>
    first
      | exact le_refl _
      | exact (List.filter_sublist e.2.1).count_le id
      | simp

end Lemmas

/-- The sine of one degree is positive. -/
theorem sinOneDeg_pos : 0 < sinOneDeg :=
  Real.sin_pos_of_pos_of_lt_pi (by positivity) (div_lt_self Real.pi_pos (by norm_num))

/-- The sine of one degree is below `1 / 10`. -/
theorem sinOneDeg_lt : sinOneDeg < 1 / 10 := by
  have h := Real.sin_lt (show (0 : ℝ) < Real.pi / 180 by positivity)
  have hpi := Real.pi_lt_d2
  unfold sinOneDeg
  linarith

/-- The one-degree Mercator log term is positive. -/
theorem mercLog_pos : 0 < mercLog := by
  have h1 := sinOneDeg_pos
  have h2 := sinOneDeg_lt
  apply Real.log_pos
  rw [lt_div_iff₀ (by linarith)]
  linarith

/-- The one-degree Mercator log term is below `1 / 2`. -/
theorem mercLog_lt : mercLog < 1 / 2 := by
  have h1 := sinOneDeg_pos
  have h2 := sinOneDeg_lt
  have hd : (0 : ℝ) < 1 - sinOneDeg := by linarith
  have ha : Real.log (1 + sinOneDeg) ≤ sinOneDeg := by
    have := Real.log_le_sub_one_of_pos (show (0 : ℝ) < 1 + sinOneDeg by linarith)
    linarith
  have hb : Real.log (1 - sinOneDeg) ≥ -(sinOneDeg / (1 - sinOneDeg)) := by
    have h3 := Real.log_le_sub_one_of_pos
      (show (0 : ℝ) < (1 - sinOneDeg)⁻¹ by positivity)
    rw [Real.log_inv] at h3
    have h4 : (1 - sinOneDeg)⁻¹ - 1 = sinOneDeg / (1 - sinOneDeg) := by field_simp
    linarith
  have hc : sinOneDeg / (1 - sinOneDeg) < 1 / 5 := by
    rw [div_lt_iff₀ hd]
    nlinarith
  have hlog : mercLog = Real.log (1 + sinOneDeg) - Real.log (1 - sinOneDeg) := by
    unfold mercLog
    exact Real.log_div (by linarith) (by linarith)
  rw [hlog]
  linarith

/-- Evaluation rule for the `double → uint32_t` conversion. -/
theorem toUint32_eq (r : ℝ) (n : ℕ) (h1 : (n : ℝ) ≤ r) (h2 : r < n + 1) :
    toUint32 r = n := by
  unfold toUint32
  have hf : ⌊r⌋ = (n : ℤ) := by
    rw [Int.floor_eq_iff]
    exact ⟨by exact_mod_cast h1, by exact_mod_cast h2⟩
  rw [hf]
  simp

/-- The projection of the origin is the centre of the normalized plane
(exact also in floating point: `sin 0` and `log 1` are exact zeros). -/
theorem projectPoint_origin : projectPoint ⟨0, 0⟩ = (1 / 2, 1 / 2) := by
  unfold projectPoint
  norm_num

/-- The projection of the northeast query corner `(1, 1)`. -/
theorem projectPoint_one :
    projectPoint ⟨1, 1⟩ = (181 / 360, 0.5 - 0.25 * mercLog / Real.pi) := by
  unfold projectPoint mercLog sinOneDeg
  norm_num

/-- The projection of the southwest query corner `(-1, -1)`. -/
theorem projectPoint_neg_one :
    projectPoint ⟨-1, -1⟩ = (179 / 360, 0.5 + 0.25 * mercLog / Real.pi) := by
  unfold projectPoint mercLog sinOneDeg
  have hs1 : Real.sin (-1 * Real.pi / 180) = -Real.sin (Real.pi / 180) := by
    rw [show (-1 : ℝ) * Real.pi / 180 = -(Real.pi / 180) by ring, Real.sin_neg]
  have hflip : (1 - Real.sin (Real.pi / 180)) / (1 + Real.sin (Real.pi / 180)) =
      ((1 + Real.sin (Real.pi / 180)) / (1 - Real.sin (Real.pi / 180)))⁻¹ := by
    rw [inv_div]
  simp only [hs1]
  rw [show (1 + -Real.sin (Real.pi / 180)) = 1 - Real.sin (Real.pi / 180) by ring,
    show (1 - -Real.sin (Real.pi / 180)) = 1 + Real.sin (Real.pi / 180) by ring,
    hflip, Real.log_inv]
  norm_num
  ring

/-- The northwest corner tile of the scenario's query box at zoom 2. -/
theorem nwTile_eval : nwTileOf ⟨⟨-1, -1⟩, ⟨1, 1⟩⟩ 2 = ⟨2, 1, 1⟩ := by
  have hpi := Real.pi_gt_three
  have hpi0 := Real.pi_pos
  have hL0 := mercLog_pos
  have hL1 := mercLog_lt
  have hdiv : 0.25 * mercLog / Real.pi < 1 / 24 := by
    rw [div_lt_iff₀ hpi0]
    nlinarith
  have hdiv0 : 0 < 0.25 * mercLog / Real.pi := by positivity
  have hx : toUint32 ((179 / 360 : ℝ) * ((2 ^ 2 : ℕ) : ℝ)) = 1 := by
    apply toUint32_eq
    · push_cast
      norm_num
    · push_cast
      norm_num
  have hy : toUint32 ((0.5 - 0.25 * mercLog / Real.pi) * ((2 ^ 2 : ℕ) : ℝ)) = 1 := by
    apply toUint32_eq
    · push_cast
      nlinarith
    · push_cast
      nlinarith
  unfold nwTileOf
  rw [projectPoint_neg_one, projectPoint_one]
  dsimp only
  rw [hx, hy]

/-- The southeast corner tile of the scenario's query box at zoom 2. -/
theorem seTile_eval : seTileOf ⟨⟨-1, -1⟩, ⟨1, 1⟩⟩ 2 = ⟨2, 2, 2⟩ := by
  have hpi := Real.pi_gt_three
  have hpi0 := Real.pi_pos
  have hL0 := mercLog_pos
  have hL1 := mercLog_lt
  have hdiv : 0.25 * mercLog / Real.pi < 1 / 24 := by
    rw [div_lt_iff₀ hpi0]
    nlinarith
  have hdiv0 : 0 < 0.25 * mercLog / Real.pi := by positivity
  have hx : toUint32 ((181 / 360 : ℝ) * ((2 ^ 2 : ℕ) : ℝ)) = 2 := by
    apply toUint32_eq
    · push_cast
      norm_num
    · push_cast
      norm_num
  have hy : toUint32 ((0.5 + 0.25 * mercLog / Real.pi) * ((2 ^ 2 : ℕ) : ℝ)) = 2 := by
    apply toUint32_eq
    · push_cast
      nlinarith
    · push_cast
      nlinarith
  unfold seTileOf
  rw [projectPoint_neg_one, projectPoint_one]
  dsimp only
  rw [hx, hy]

/-- Unfolding of `fanout` at any nonzero zoom (numeral-friendly form). -/
theorem fanout_eq_of_ne (a : ℕ) (s : String) (p : ℝ × ℝ) (z z2 x y : ℕ)
    (tiles : List (TileID × (List ℕ × LiveTile)))
    (tf : List (TileID × List LiveTileFeature)) (affected : List TileID)
    (hz : z ≠ 0) :
    fanout a s p z z2 x y tiles tf affected =
      fanout a s p (z - 1) (z2 / 2) (x / 2) (y / 2)
        (fanStep a s p z z2 x y tiles tf affected).1
        (fanStep a s p z z2 x y tiles tf affected).2.1
        (fanStep a s p z z2 x y tiles tf affected).2.2 := by
  conv_lhs => rw [fanout]
  simp [hz]

/-- The loop body at zoom 2 for the origin (local offset `(0, 0)`), on an
empty tile table. -/
theorem fanStep_o2 (aid : ℕ) (sp : String) (aff : List TileID) :
    fanStep aid sp (1 / 2, 1 / 2) 2 4 2 2 [] [] aff =
      ([(⟨2, 2, 2⟩, ([aid], ⟨[(layerID, [⟨aid, ⟨2, 2, 2⟩, (0, 0), sp⟩])]⟩))],
       [(⟨2, 2, 2⟩, [⟨aid, ⟨2, 2, 2⟩, (0, 0), sp⟩])],
       aff ++ [⟨2, 2, 2⟩]) := by
  simp only [fanStep, mapFind, mapEmplace, LiveTile.addLayer]
  norm_num

/-- The loop body at zoom 1 for the origin, after the zoom-2 entry. -/
theorem fanStep_o1 (aid : ℕ) (sp : String) (aff : List TileID)
    (e2 : List ℕ × LiveTile) (w2 : List LiveTileFeature) :
    fanStep aid sp (1 / 2, 1 / 2) 1 2 1 1 [(⟨2, 2, 2⟩, e2)] [(⟨2, 2, 2⟩, w2)] aff =
      ([(⟨2, 2, 2⟩, e2),
        (⟨1, 1, 1⟩, ([aid], ⟨[(layerID, [⟨aid, ⟨1, 1, 1⟩, (0, 0), sp⟩])]⟩))],
       [(⟨2, 2, 2⟩, w2), (⟨1, 1, 1⟩, [⟨aid, ⟨1, 1, 1⟩, (0, 0), sp⟩])],
       aff ++ [⟨1, 1, 1⟩]) := by
  simp only [fanStep, mapFind, mapEmplace, LiveTile.addLayer]
  norm_num [TileID.mk.injEq]

/-- The loop body at zoom 0 for the origin (local offset `(2048, 2048)`),
after the zoom-2 and zoom-1 entries. -/
theorem fanStep_o0 (aid : ℕ) (sp : String) (aff : List TileID)
    (e2 e1 : List ℕ × LiveTile) (w2 w1 : List LiveTileFeature) :
    fanStep aid sp (1 / 2, 1 / 2) 0 1 0 0 [(⟨2, 2, 2⟩, e2), (⟨1, 1, 1⟩, e1)]
        [(⟨2, 2, 2⟩, w2), (⟨1, 1, 1⟩, w1)] aff =
      ([(⟨2, 2, 2⟩, e2), (⟨1, 1, 1⟩, e1),
        (⟨0, 0, 0⟩, ([aid], ⟨[(layerID, [⟨aid, ⟨0, 0, 0⟩, (2048, 2048), sp⟩])]⟩))],
       [(⟨2, 2, 2⟩, w2), (⟨1, 1, 1⟩, w1),
        (⟨0, 0, 0⟩, [⟨aid, ⟨0, 0, 0⟩, (2048, 2048), sp⟩])],
       aff ++ [⟨0, 0, 0⟩]) := by
  simp only [fanStep, mapFind, mapEmplace, LiveTile.addLayer]
  norm_num [TileID.mk.injEq]

/-- The whole zoom-2 fan-out of the origin on an empty tile table. -/
theorem fanout_o2 (aid : ℕ) (sp : String) :
    fanout aid sp (1 / 2, 1 / 2) 2 4 2 2 [] [] [] =
      ([(⟨2, 2, 2⟩, ([aid], ⟨[(layerID, [⟨aid, ⟨2, 2, 2⟩, (0, 0), sp⟩])]⟩)),
        (⟨1, 1, 1⟩, ([aid], ⟨[(layerID, [⟨aid, ⟨1, 1, 1⟩, (0, 0), sp⟩])]⟩)),
        (⟨0, 0, 0⟩, ([aid], ⟨[(layerID, [⟨aid, ⟨0, 0, 0⟩, (2048, 2048), sp⟩])]⟩))],
       [(⟨2, 2, 2⟩, [⟨aid, ⟨2, 2, 2⟩, (0, 0), sp⟩]),
        (⟨1, 1, 1⟩, [⟨aid, ⟨1, 1, 1⟩, (0, 0), sp⟩]),
        (⟨0, 0, 0⟩, [⟨aid, ⟨0, 0, 0⟩, (2048, 2048), sp⟩])],
       [⟨2, 2, 2⟩, ⟨1, 1, 1⟩, ⟨0, 0, 0⟩]) := by
  rw [fanout_eq_of_ne aid sp (1 / 2, 1 / 2) 2 4 2 2 [] [] [] (by norm_num),
    fanStep_o2]
  dsimp only
  norm_num [-Prod.mk_zero_zero]
  rw [fanout_eq_of_ne aid sp (1 / 2, 1 / 2) 1 2 1 1
      [(⟨2, 2, 2⟩, ([aid], ⟨[(layerID, [⟨aid, ⟨2, 2, 2⟩, (0, 0), sp⟩])]⟩))]
      [(⟨2, 2, 2⟩, [⟨aid, ⟨2, 2, 2⟩, (0, 0), sp⟩])]
      [⟨2, 2, 2⟩] (by norm_num),
    fanStep_o1]
  dsimp only
  norm_num [-Prod.mk_zero_zero]
  rw [fanout_eq_zero, fanStep_o0]
  simp

/-- The loop body at zoom 0 for the origin on an empty tile table. -/
theorem fanStep_o0_empty (aid : ℕ) (sp : String) (aff : List TileID) :
    fanStep aid sp (1 / 2, 1 / 2) 0 1 0 0 [] [] aff =
      ([(⟨0, 0, 0⟩, ([aid], ⟨[(layerID, [⟨aid, ⟨0, 0, 0⟩, (2048, 2048), sp⟩])]⟩))],
       [(⟨0, 0, 0⟩, [⟨aid, ⟨0, 0, 0⟩, (2048, 2048), sp⟩])],
       aff ++ [⟨0, 0, 0⟩]) := by
  simp only [fanStep, mapFind, mapEmplace, LiveTile.addLayer]
  norm_num

/-- The loop body at zoom 0 for the origin when the zoom-0 tile already
exists: the feature and the ID are appended to the existing layer and
contributing list. -/
theorem fanStep_o0_one (aid : ℕ) (sp : String) (aff : List TileID) (ids0 : List ℕ)
    (fs : List LiveTileFeature) :
    fanStep aid sp (1 / 2, 1 / 2) 0 1 0 0 [(⟨0, 0, 0⟩, (ids0, ⟨[(layerID, fs)]⟩))] [] aff =
      ([(⟨0, 0, 0⟩, (ids0 ++ [aid],
          ⟨[(layerID, fs ++ [⟨aid, ⟨0, 0, 0⟩, (2048, 2048), sp⟩])]⟩))],
       [(⟨0, 0, 0⟩, [⟨aid, ⟨0, 0, 0⟩, (2048, 2048), sp⟩])],
       aff ++ [⟨0, 0, 0⟩]) := by
  simp only [fanStep, mapFind, mapEmplace, mapUpdate, LiveTile.addFeature,
    List.map_cons, List.map_nil]
  norm_num

/-- Full evaluation of `addOnePoint` for the concrete scenario: origin
point, empty symbol, default `"marker"`, `maxZoom = 2`, fresh manager. -/
theorem addOnePoint_origin_marker :
    addOnePoint 2 ⟨0, 0⟩ "" ⟨0, "marker", [], []⟩ [] =
      (⟨1, "marker",
        [(0, ⟨AnnotationType.Point, [[⟨0, 0⟩]],
          [(⟨2, 2, 2⟩, [⟨0, ⟨2, 2, 2⟩, (0, 0), "marker"⟩]),
           (⟨1, 1, 1⟩, [⟨0, ⟨1, 1, 1⟩, (0, 0), "marker"⟩]),
           (⟨0, 0, 0⟩, [⟨0, ⟨0, 0, 0⟩, (2048, 2048), "marker"⟩])],
          ⟨⟨0, 0⟩, ⟨0, 0⟩⟩⟩)],
        [(⟨2, 2, 2⟩, ([0], ⟨[(layerID, [⟨0, ⟨2, 2, 2⟩, (0, 0), "marker"⟩])]⟩)),
         (⟨1, 1, 1⟩, ([0], ⟨[(layerID, [⟨0, ⟨1, 1, 1⟩, (0, 0), "marker"⟩])]⟩)),
         (⟨0, 0, 0⟩, ([0], ⟨[(layerID, [⟨0, ⟨0, 0, 0⟩, (2048, 2048), "marker"⟩])]⟩))]⟩,
       [⟨2, 2, 2⟩, ⟨1, 1, 1⟩, ⟨0, 0, 0⟩]) := by
  have hx : toUint32 ((1 / 2 : ℝ) * ((2 ^ 2 : ℕ) : ℝ)) = 2 := by
    apply toUint32_eq
    · push_cast
      norm_num
    · push_cast
      norm_num
  have hsp : (if ("" : String).length ≠ 0 then ("" : String) else "marker") = "marker" := by
    decide
  simp only [addOnePoint, projectPoint_origin]
  try dsimp only
  simp only [mapFind, mapEmplace, Option.getD, AnnotationEntity.ofPoint, hsp, hx,
    List.nil_append, eq_self_iff_true, if_true]
  try dsimp only
  rw [show (2 ^ 2 : ℕ) = 4 from rfl, fanout_o2 0 "marker"]
  simp only [mapUpdate, List.map_cons, List.map_nil, if_pos]
  norm_num [u32, -Prod.mk_zero_zero]

/-- Full evaluation of `addPointAnnotations` for the concrete scenario. -/
theorem add_origin_marker :
    (AnnotationManager.init.setDefaultPointAnnotationSymbol "marker").addPointAnnotations
        [⟨0, 0⟩] [""] 2 =
      (⟨1, "marker",
        [(0, ⟨AnnotationType.Point, [[⟨0, 0⟩]],
          [(⟨2, 2, 2⟩, [⟨0, ⟨2, 2, 2⟩, (0, 0), "marker"⟩]),
           (⟨1, 1, 1⟩, [⟨0, ⟨1, 1, 1⟩, (0, 0), "marker"⟩]),
           (⟨0, 0, 0⟩, [⟨0, ⟨0, 0, 0⟩, (2048, 2048), "marker"⟩])],
          ⟨⟨0, 0⟩, ⟨0, 0⟩⟩⟩)],
        [(⟨2, 2, 2⟩, ([0], ⟨[(layerID, [⟨0, ⟨2, 2, 2⟩, (0, 0), "marker"⟩])]⟩)),
         (⟨1, 1, 1⟩, ([0], ⟨[(layerID, [⟨0, ⟨1, 1, 1⟩, (0, 0), "marker"⟩])]⟩)),
         (⟨0, 0, 0⟩, ([0], ⟨[(layerID, [⟨0, ⟨0, 0, 0⟩, (2048, 2048), "marker"⟩])]⟩))]⟩,
       [⟨2, 2, 2⟩, ⟨1, 1, 1⟩, ⟨0, 0, 0⟩], [0, 0]) := by
  show addPointLoop 2 [⟨0, 0⟩] [""] ⟨0, "marker", [], []⟩ [] (List.replicate 1 0) = _
  rw [show List.replicate 1 (0 : ℕ) = [0] from rfl]
  simp only [addPointLoop, List.headD_cons, List.tail_cons]
  rw [addOnePoint_origin_marker]
  dsimp only
  simp

/-- The boundary filter accepts annotation `0` of the concrete scenario:
its degenerate bounds at the origin lie inside the query box. -/
theorem boundsFilter_marker_eval :
    boundsFilter
      [(0, ⟨AnnotationType.Point, [[⟨0, 0⟩]],
        [(⟨2, 2, 2⟩, [⟨0, ⟨2, 2, 2⟩, (0, 0), "marker"⟩]),
         (⟨1, 1, 1⟩, [⟨0, ⟨1, 1, 1⟩, (0, 0), "marker"⟩]),
         (⟨0, 0, 0⟩, [⟨0, ⟨0, 0, 0⟩, (2048, 2048), "marker"⟩])],
        ⟨⟨0, 0⟩, ⟨0, 0⟩⟩⟩)]
      ⟨⟨-1, -1⟩, ⟨1, 1⟩⟩ 0 = true := by
  unfold boundsFilter
  simp only [mapFind, eq_self_iff_true, if_true]
  rw [decide_eq_true_eq]
  norm_num

/-- The concrete scenario's query returns exactly `[0]`. -/
theorem query_marker_eval :
    (AnnotationManager.mk 1 "marker"
      [(0, ⟨AnnotationType.Point, [[⟨0, 0⟩]],
        [(⟨2, 2, 2⟩, [⟨0, ⟨2, 2, 2⟩, (0, 0), "marker"⟩]),
         (⟨1, 1, 1⟩, [⟨0, ⟨1, 1, 1⟩, (0, 0), "marker"⟩]),
         (⟨0, 0, 0⟩, [⟨0, ⟨0, 0, 0⟩, (2048, 2048), "marker"⟩])],
        ⟨⟨0, 0⟩, ⟨0, 0⟩⟩⟩)]
      [(⟨2, 2, 2⟩, ([0], ⟨[(layerID, [⟨0, ⟨2, 2, 2⟩, (0, 0), "marker"⟩])]⟩)),
       (⟨1, 1, 1⟩, ([0], ⟨[(layerID, [⟨0, ⟨1, 1, 1⟩, (0, 0), "marker"⟩])]⟩)),
       (⟨0, 0, 0⟩, ([0], ⟨[(layerID, [⟨0, ⟨0, 0, 0⟩, (2048, 2048), "marker"⟩])]⟩))]).getAnnotationsInBounds
      ⟨⟨-1, -1⟩, ⟨1, 1⟩⟩ 2 = [0] := by
  unfold AnnotationManager.getAnnotationsInBounds
  rw [nwTile_eval, seTile_eval]
  simp only [List.foldl_cons, List.foldl_nil]
  norm_num [queryContribution, List.filter_cons, List.filter_nil,
    boundsFilter_marker_eval, -Prod.mk_zero_zero]

/-- Claim C2. The spec's concrete scenario: with default symbol
`"marker"` and `maxZoom = 2`, adding the single origin point reports the
three affected tiles `(2,2,2)`, `(1,1,1)`, `(0,0,0)` (the floor tie-break
puts the origin at `x = y = 2^z / 2`), allocates exactly one new ID, `0`
(the annotation table holds exactly key `0` and the counter advances to
`1`); `getAnnotationsInBounds` over `sw = (-1,-1)`, `ne = (1,1)` at zoom
`2` then returns exactly `[0]`; and `removeAnnotations [0]` returns
exactly those three tiles and leaves the annotation table empty.  (The
pair's returned ID vector itself is `[0, 0]` because of the pre-sizing
bug recorded at claim C1; the allocation itself is the single ID `0`.) -/
theorem C2_concrete_scenario :
    ((AnnotationManager.init.setDefaultPointAnnotationSymbol "marker").addPointAnnotations
        [⟨0, 0⟩] [""] 2).2.1 = [⟨2, 2, 2⟩, ⟨1, 1, 1⟩, ⟨0, 0, 0⟩] ∧
    mapKeys ((AnnotationManager.init.setDefaultPointAnnotationSymbol
        "marker").addPointAnnotations [⟨0, 0⟩] [""] 2).1.annotations = [0] ∧
    ((AnnotationManager.init.setDefaultPointAnnotationSymbol "marker").addPointAnnotations
        [⟨0, 0⟩] [""] 2).1.nextID_ = 1 ∧
    ((AnnotationManager.init.setDefaultPointAnnotationSymbol "marker").addPointAnnotations
        [⟨0, 0⟩] [""] 2).1.getAnnotationsInBounds ⟨⟨-1, -1⟩, ⟨1, 1⟩⟩ 2 = [0] ∧
    List.Perm (((AnnotationManager.init.setDefaultPointAnnotationSymbol
        "marker").addPointAnnotations [⟨0, 0⟩] [""] 2).1.removeAnnotations [0]).2
      [⟨2, 2, 2⟩, ⟨1, 1, 1⟩, ⟨0, 0, 0⟩] ∧
    (((AnnotationManager.init.setDefaultPointAnnotationSymbol
        "marker").addPointAnnotations [⟨0, 0⟩] [""] 2).1.removeAnnotations
        [0]).1.annotations = [] := by
  refine ⟨?_, ?_, ?_, ?_, ?_, ?_⟩ <;> rw [add_origin_marker] <;>
    first
      | exact query_marker_eval
      | exact List.Perm.refl _
      | rfl

/-- Evaluation of `addOnePoint` for the first origin point at zoom 0 on a
fresh manager. -/
theorem addOnePoint_origin_first :
    addOnePoint 0 ⟨0, 0⟩ "" ⟨0, "", [], []⟩ [] =
      (⟨1, "",
        [(0, ⟨AnnotationType.Point, [[⟨0, 0⟩]],
          [(⟨0, 0, 0⟩, [⟨0, ⟨0, 0, 0⟩, (2048, 2048), ""⟩])], ⟨⟨0, 0⟩, ⟨0, 0⟩⟩⟩)],
        [(⟨0, 0, 0⟩, ([0], ⟨[(layerID, [⟨0, ⟨0, 0, 0⟩, (2048, 2048), ""⟩])]⟩))]⟩,
       [⟨0, 0, 0⟩]) := by
  have hx : toUint32 ((1 / 2 : ℝ) * ((2 ^ 0 : ℕ) : ℝ)) = 0 := by
    apply toUint32_eq
    · push_cast
      norm_num
    · push_cast
      norm_num
  simp only [addOnePoint, projectPoint_origin]
  try dsimp only
  simp only [mapFind, mapEmplace, Option.getD, AnnotationEntity.ofPoint, hx,
    List.nil_append, eq_self_iff_true, if_true, ite_self]
  try dsimp only
  rw [show (2 ^ 0 : ℕ) = 1 from rfl, fanout_eq_zero, fanStep_o0_empty]
  simp only [mapUpdate, List.map_cons, List.map_nil, if_pos]
  norm_num [u32]

/-- Evaluation of `addOnePoint` for the second origin point at zoom 0:
the zoom-0 tile entry already exists, so the ID and feature are appended. -/
theorem addOnePoint_origin_second :
    addOnePoint 0 ⟨0, 0⟩ ""
      ⟨1, "",
        [(0, ⟨AnnotationType.Point, [[⟨0, 0⟩]],
          [(⟨0, 0, 0⟩, [⟨0, ⟨0, 0, 0⟩, (2048, 2048), ""⟩])], ⟨⟨0, 0⟩, ⟨0, 0⟩⟩⟩)],
        [(⟨0, 0, 0⟩, ([0], ⟨[(layerID, [⟨0, ⟨0, 0, 0⟩, (2048, 2048), ""⟩])]⟩))]⟩
      [⟨0, 0, 0⟩] =
      (⟨2, "",
        [(0, ⟨AnnotationType.Point, [[⟨0, 0⟩]],
          [(⟨0, 0, 0⟩, [⟨0, ⟨0, 0, 0⟩, (2048, 2048), ""⟩])], ⟨⟨0, 0⟩, ⟨0, 0⟩⟩⟩),
         (1, ⟨AnnotationType.Point, [[⟨0, 0⟩]],
          [(⟨0, 0, 0⟩, [⟨1, ⟨0, 0, 0⟩, (2048, 2048), ""⟩])], ⟨⟨0, 0⟩, ⟨0, 0⟩⟩⟩)],
        [(⟨0, 0, 0⟩, ([0, 1], ⟨[(layerID,
          [⟨0, ⟨0, 0, 0⟩, (2048, 2048), ""⟩,
           ⟨1, ⟨0, 0, 0⟩, (2048, 2048), ""⟩])]⟩))]⟩,
       [⟨0, 0, 0⟩, ⟨0, 0, 0⟩]) := by
  have hx : toUint32 ((1 / 2 : ℝ) * ((2 ^ 0 : ℕ) : ℝ)) = 0 := by
    apply toUint32_eq
    · push_cast
      norm_num
    · push_cast
      norm_num
  simp only [addOnePoint, projectPoint_origin]
  try dsimp only
  simp only [mapFind, mapEmplace, Option.getD, AnnotationEntity.ofPoint, hx,
    List.nil_append, eq_self_iff_true, if_true, ite_self]
  try dsimp only
  rw [show (2 ^ 0 : ℕ) = 1 from rfl]
  norm_num
  rw [fanout_eq_zero, fanStep_o0_one]
  simp only [mapUpdate, List.map_cons, List.map_nil]
  norm_num [u32]

/-- Evaluation of `addPointAnnotations` for two coincident origin points
at zoom 0 on a fresh manager. -/
theorem add_two_origin :
    AnnotationManager.init.addPointAnnotations [⟨0, 0⟩, ⟨0, 0⟩] ["", ""] 0 =
      (⟨2, "",
        [(0, ⟨AnnotationType.Point, [[⟨0, 0⟩]],
          [(⟨0, 0, 0⟩, [⟨0, ⟨0, 0, 0⟩, (2048, 2048), ""⟩])], ⟨⟨0, 0⟩, ⟨0, 0⟩⟩⟩),
         (1, ⟨AnnotationType.Point, [[⟨0, 0⟩]],
          [(⟨0, 0, 0⟩, [⟨1, ⟨0, 0, 0⟩, (2048, 2048), ""⟩])], ⟨⟨0, 0⟩, ⟨0, 0⟩⟩⟩)],
        [(⟨0, 0, 0⟩, ([0, 1], ⟨[(layerID,
          [⟨0, ⟨0, 0, 0⟩, (2048, 2048), ""⟩,
           ⟨1, ⟨0, 0, 0⟩, (2048, 2048), ""⟩])]⟩))]⟩,
       [⟨0, 0, 0⟩, ⟨0, 0, 0⟩], [0, 0, 0, 1]) := by
  show addPointLoop 0 [⟨0, 0⟩, ⟨0, 0⟩] ["", ""] ⟨0, "", [], []⟩ [] (List.replicate 2 0) = _
  rw [show List.replicate 2 (0 : ℕ) = [0, 0] from rfl]
  simp only [addPointLoop, List.headD_cons, List.tail_cons]
  rw [addOnePoint_origin_first]
  try dsimp only
  rw [addOnePoint_origin_second]
  try dsimp only
  simp

/-- Counterexample to claim C3 as stated: after adding two coincident
origin points at zoom 0, removing both returns the single changed tile
`(0,0,0)` twice — one occurrence per removed annotation — so the result
is not a set with one occurrence per changed tile. -/
theorem C3_duplicate_tiles_counterexample :
    ((AnnotationManager.init.addPointAnnotations [⟨0, 0⟩, ⟨0, 0⟩] ["", ""]
        0).1.removeAnnotations [0, 1]).2 = [⟨0, 0, 0⟩, ⟨0, 0, 0⟩] ∧
    ¬ ((AnnotationManager.init.addPointAnnotations [⟨0, 0⟩, ⟨0, 0⟩] ["", ""]
        0).1.removeAnnotations [0, 1]).2.Nodup := by
  constructor
  · rw [add_two_origin]
    rfl
  · rw [add_two_origin]
    decide

/-- Claim C9. No operation removes a tile entry: `removeAnnotations`
leaves the tile key list exactly unchanged (it rewrites tile values only),
and `addPointAnnotations` only appends new tile keys, so once a tile
coordinate is a key of the tile table it remains one. -/
theorem C9_tile_keys_persist (st : AnnotationManager) (ids : List ℕ)
    (pts : List LatLng) (syms : List String) (Z : ℕ) :
    mapKeys (st.removeAnnotations ids).1.annotationTiles = mapKeys st.annotationTiles ∧
    ∃ t, mapKeys (st.addPointAnnotations pts syms Z).1.annotationTiles =
      mapKeys st.annotationTiles ++ t := by
  constructor
  · exact removeFoldl_tile_keys ids (st, [])
  · exact addPointLoop_keys Z pts syms st [] (List.replicate pts.length 0)

/-- Claim C5. An ID is returned by `getAnnotationsInBounds(q, Z)` exactly
when some tile entry at zoom `Z` whose coordinate lies in the rectangle
`[nwTileOf q Z, seTileOf q Z]` lists it as contributing, and that tile is
either strictly interior to the rectangle (trivial accept of all its
contributors) or on its boundary with the candidate's live annotation
bounds fully contained in the query box. -/
theorem C5_query_membership (st : AnnotationManager) (q : LatLngBounds)
    (Z : ℕ) (id : ℕ) :
    id ∈ st.getAnnotationsInBounds q Z ↔
      ∃ e ∈ st.annotationTiles, e.1.z = Z ∧
        ((nwTileOf q Z).x ≤ e.1.x ∧ e.1.x ≤ (seTileOf q Z).x ∧
          (nwTileOf q Z).y ≤ e.1.y ∧ e.1.y ≤ (seTileOf q Z).y) ∧
        id ∈ e.2.1 ∧
        (((nwTileOf q Z).x < e.1.x ∧ e.1.x < (seTileOf q Z).x ∧
            (nwTileOf q Z).y < e.1.y ∧ e.1.y < (seTileOf q Z).y) ∨
          Contained st.annotations q id) := by
  rw [getAnnotationsInBounds_eq]
  simp only [List.mem_flatten, List.mem_map]
  constructor
  · rintro ⟨s, ⟨e, he, rfl⟩, hid⟩
    exact ⟨e, he, (mem_queryContribution _ _ _ _ _ e id).mp hid⟩
  · rintro ⟨e, he, h⟩
    exact ⟨_, ⟨e, he, rfl⟩, (mem_queryContribution _ _ _ _ _ e id).mpr h⟩

/-- Claim C3 (amended): a tile occurs among the tiles returned by
`removeAnnotations(ids)` if and only if some ID in `ids` denotes a stored
annotation that recorded a feature reference for that (existing) tile
entry; the result may contain duplicates — one occurrence per removed
annotation and tile — so it is a multiset covering exactly the changed
tiles, not a duplicate-free set. -/
theorem C3_affected_membership (st : AnnotationManager) (ids : List ℕ) (k : TileID) :
    k ∈ (st.removeAnnotations ids).2 ↔
      ∃ id ∈ ids, ∃ a, mapFind id st.annotations = some a ∧
        k ∈ mapKeys st.annotationTiles ∧
        (mapFind k a.tileFeatures).isSome = true := by
  rw [AnnotationManager.removeAnnotations, removeFoldl_affected_mem]
  simp

/-- Claim C7. The referential invariant — every annotation ID on any tile
entry's contributing list is a key of the annotation table — is preserved
by `addPointAnnotations` (it only appends the freshly stored ID) and by
`removeAnnotations` (it strikes the removed ID from every contributing
list before erasing the annotation); consequently every ID returned by
`getAnnotationsInBounds` (in particular by its trivial-accept branch)
denotes a live annotation. -/
theorem C7_tile_ids_live (st : AnnotationManager)
    (pts : List LatLng) (syms : List String) (Z : ℕ) (ids : List ℕ)
    (q : LatLngBounds) (qz : ℕ) (h : TileIDsLive st) :
    TileIDsLive (st.addPointAnnotations pts syms Z).1 ∧
    TileIDsLive (st.removeAnnotations ids).1 ∧
    ∀ id ∈ st.getAnnotationsInBounds q qz, id ∈ mapKeys st.annotations := by
  refine ⟨addPointLoop_tileIDsLive Z pts syms st [] (List.replicate pts.length 0) h,
    removeFoldl_tileIDsLive ids (st, []) h, ?_⟩
  intro id hid
  rw [getAnnotationsInBounds_eq] at hid
  simp only [List.mem_flatten, List.mem_map] at hid
  obtain ⟨s', ⟨e, he, rfl⟩, hmem⟩ := hid
  obtain ⟨-, -, hin, hcase⟩ := (mem_queryContribution _ _ _ _ _ e id).mp hmem
  rcases hcase with - | ⟨a, hfa, -⟩
  · exact h e he id hin
  · exact mapFind_some_mem_keys hfa

/-- Witness for C7 on a fresh manager, where the invariant holds
vacuously. -/
theorem C7_tile_ids_live_witness :
    TileIDsLive AnnotationManager.init ∧
      (TileIDsLive (AnnotationManager.init.addPointAnnotations [] [] 0).1 ∧
       TileIDsLive (AnnotationManager.init.removeAnnotations []).1 ∧
       ∀ id ∈ AnnotationManager.init.getAnnotationsInBounds ⟨⟨0, 0⟩, ⟨0, 0⟩⟩ 0,
         id ∈ mapKeys AnnotationManager.init.annotations) :=
  have hinv : TileIDsLive AnnotationManager.init := by
    intro e he id hid
    simp [AnnotationManager.init] at he
  ⟨hinv, C7_tile_ids_live AnnotationManager.init [] [] 0 [] ⟨⟨0, 0⟩, ⟨0, 0⟩⟩ 0 hinv⟩

/-- Claim C10 (amended). If the manager has been populated only through
`addPointAnnotations` (and symbol changes) with the total allocation count
kept inside the `uint32_t` ID space, then every query result is
duplicate-free: each point is recorded in exactly one tile per zoom level
and at most once per contributing list, so at the single queried zoom it
appears at most once overall.  (Past `2 ^ 32` allocations the wrapped
counter reuses an ID on an existing contributing list and the claim fails,
cf. the counterexample.) -/
theorem C10_query_nodup (st : AnnotationManager) (q : LatLngBounds) (Z : ℕ)
    (h : ReachableByAdds st) : (st.getAnnotationsInBounds q Z).Nodup := by
  have hinv := reachable_AddsInv h
  rw [List.nodup_iff_count_le_one]
  intro id
  exact le_trans (query_count_le st q Z id) (hinv.2.1 Z id)

/-- Witness for C10 on the fresh manager (reachable by the base rule). -/
theorem C10_query_nodup_witness :
    ReachableByAdds AnnotationManager.init ∧
      (AnnotationManager.init.getAnnotationsInBounds ⟨⟨0, 0⟩, ⟨0, 0⟩⟩ 2).Nodup :=
  ⟨ReachableByAdds.base,
   C10_query_nodup AnnotationManager.init ⟨⟨0, 0⟩, ⟨0, 0⟩⟩ 2 ReachableByAdds.base⟩

/-- Claim C1. The claim states that the second component of the returned
pair of `addPointAnnotations` holds exactly one newly allocated ID per
input point.  The code pre-sizes the result vector with `points.size()`
zero entries (`AnnotationIDs annotationIDs(points.size())`) and then
appends the allocated IDs, so for one input point on a fresh manager it
returns `[0, 0]` — length `2`, not `1`.  This theorem evaluates the code
at that failing input. -/
theorem C1_returned_ids_doubled :
    (AnnotationManager.init.addPointAnnotations [⟨0, 0⟩] [""] 0).2.2 = [0, 0] ∧
      [(⟨0, 0⟩ : LatLng)].length = 1 := by
  constructor
  · rw [AnnotationManager.addPointAnnotations, addPointLoop_ids]
    rfl
  · rfl

/-- Claim C4. The affected tiles reported by `addPointAnnotations` are
exactly each input point's recorded pyramid `fanList Z (tileX pt Z)
(tileY pt Z)`, in input order; and within any recorded pyramid, for every
zoom `z` with `1 ≤ z ≤ Z`, the tile recorded at zoom `z - 1` is the
integer-halved parent of the tile recorded at zoom `z` (its coordinates
are the zoom-`z` coordinates divided by 2 with floor division). -/
theorem C4_fanout_parent (st : AnnotationManager) (pts : List LatLng)
    (syms : List String) (Z : ℕ) :
    (st.addPointAnnotations pts syms Z).2.1 =
      (pts.map (fun pt => fanList Z (tileX pt Z) (tileY pt Z))).flatten ∧
    ∀ x0 y0 z, 1 ≤ z → z ≤ Z → ∀ x y x' y',
      (⟨z, x, y⟩ : TileID) ∈ fanList Z x0 y0 →
      (⟨z - 1, x', y'⟩ : TileID) ∈ fanList Z x0 y0 →
      x' = x / 2 ∧ y' = y / 2 := by
  constructor
  · rw [AnnotationManager.addPointAnnotations, addPointLoop_affected]
    simp
  · intro x0 y0 z h1 hZ x y x' y' hm hm'
    rw [fanList_mem] at hm hm'
    obtain ⟨-, hx, hy⟩ := hm
    obtain ⟨-, hx', hy'⟩ := hm'
    have e : Z - (z - 1) = Z - z + 1 := by omega
    rw [e] at hx' hy'
    subst hx
    subst hy
    subst hx'
    subst hy'
    constructor
    · rw [Nat.div_div_eq_div_mul, ← pow_succ]
    · rw [Nat.div_div_eq_div_mul, ← pow_succ]

/-- Witness for C4 at a concrete instance: in the pyramid of a point with
zoom-1 coordinates `(1, 1)`, the zoom-0 tile is `(0, 0) = (1 / 2, 1 / 2)`. -/
theorem C4_fanout_parent_witness :
    (1 : ℕ) ≤ 1 ∧ (1 : ℕ) ≤ 1 ∧
      ((⟨1, 1, 1⟩ : TileID) ∈ fanList 1 1 1) ∧
      ((⟨0, 0, 0⟩ : TileID) ∈ fanList 1 1 1) ∧
      ((0 : ℕ) = 1 / 2 ∧ (0 : ℕ) = 1 / 2) :=
  ⟨le_refl 1, le_refl 1, by decide, by decide,
    (C4_fanout_parent AnnotationManager.init [] [] 1).2 1 1 1 (le_refl 1) (le_refl 1)
      1 1 0 0 (by decide) (by decide)⟩

/-- Claim C6. Removing an ID that is absent from the annotation table
contributes nothing: the call is processed as if the ID were not in the
argument list at all (no affected tiles, no state change on its account),
and removing the same ID a second time has no effect. -/
theorem C6_remove_idempotent (st : AnnotationManager) (id : ℕ) (rest : List ℕ) :
    (mapFind id st.annotations = none →
      st.removeAnnotations (id :: rest) = st.removeAnnotations rest) ∧
    (st.removeAnnotations [id]).1.removeAnnotations [id] =
      ((st.removeAnnotations [id]).1, []) := by
  constructor
  · intro h
    simp [AnnotationManager.removeAnnotations, removeOne, h]
  · rcases hf : mapFind id st.annotations with - | a
    · simp [AnnotationManager.removeAnnotations, removeOne, hf]
    · simp [AnnotationManager.removeAnnotations, removeOne, hf, mapFind_mapErase_self]

/-- Witness for C6: removing the unknown ID `7` from a fresh manager
equals removing nothing. -/
theorem C6_remove_idempotent_witness :
    mapFind 7 AnnotationManager.init.annotations = none ∧
      AnnotationManager.init.removeAnnotations (7 :: []) =
        AnnotationManager.init.removeAnnotations [] :=
  ⟨rfl, (C6_remove_idempotent AnnotationManager.init 7 []).1 rfl⟩

/-- Claim C8 (amended): as long as the combined number of allocations
stays within the `uint32_t` ID space, the IDs allocated by two successive
`addPointAnnotations` calls form a strictly increasing sequence — within
each call and across the calls, so every ID of the second call is strictly
greater than (hence distinct from) every ID of the first. -/
theorem C8_monotonic_ids (st : AnnotationManager)
    (pts1 : List LatLng) (syms1 : List String) (Z1 : ℕ)
    (pts2 : List LatLng) (syms2 : List String) (Z2 : ℕ)
    (hlt : st.nextID_ < u32)
    (hc : st.nextID_ + pts1.length + pts2.length ≤ u32) :
    ((st.addPointAnnotations pts1 syms1 Z1).2.2.drop pts1.length ++
      ((st.addPointAnnotations pts1 syms1 Z1).1.addPointAnnotations pts2 syms2
        Z2).2.2.drop pts2.length).Pairwise (· < ·) := by
  rw [addPointAnnotations_ids_drop, addPointAnnotations_ids_drop,
    addPointAnnotations_counter]
  rw [allocatedIDs_no_wrap pts1.length st.nextID_ (by omega)]
  by_cases hw : st.nextID_ + pts1.length = u32
  · have h20 : pts2.length = 0 := by omega
    rw [h20]
    simpa [allocatedIDs] using List.pairwise_lt_range' st.nextID_ pts1.length
  · have hc2 : counterAfter st.nextID_ pts1.length = st.nextID_ + pts1.length := by
      rw [counterAfter_no_wrap pts1.length st.nextID_ hlt (by omega)]
      exact Nat.mod_eq_of_lt (by omega)
    rw [hc2, allocatedIDs_no_wrap pts2.length (st.nextID_ + pts1.length) (by omega)]
    have happ := List.range'_append st.nextID_ pts1.length pts2.length 1
    simp only [one_mul, Nat.add_comm pts2.length pts1.length] at happ
    rw [happ]
    exact List.pairwise_lt_range' st.nextID_ (pts1.length + pts2.length)

/-- Witness for C8 at a concrete instance: from a fresh manager, a 1-point
call followed by a 2-point call allocates `[0]` then `[1, 2]`. -/
theorem C8_monotonic_ids_witness :
    AnnotationManager.init.nextID_ < u32 ∧
    AnnotationManager.init.nextID_ + [(⟨0, 0⟩ : LatLng)].length +
      [(⟨0, 0⟩ : LatLng), ⟨0, 0⟩].length ≤ u32 ∧
    ((AnnotationManager.init.addPointAnnotations [⟨0, 0⟩] [""] 0).2.2.drop
        [(⟨0, 0⟩ : LatLng)].length ++
      ((AnnotationManager.init.addPointAnnotations [⟨0, 0⟩] [""] 0).1.addPointAnnotations
        [⟨0, 0⟩, ⟨0, 0⟩] ["", ""] 0).2.2.drop
        [(⟨0, 0⟩ : LatLng), ⟨0, 0⟩].length).Pairwise (· < ·) :=
  ⟨by norm_num [AnnotationManager.init, u32],
   by norm_num [AnnotationManager.init, u32],
   C8_monotonic_ids AnnotationManager.init [⟨0, 0⟩] [""] 0 [⟨0, 0⟩, ⟨0, 0⟩] ["", ""] 0
     (by norm_num [AnnotationManager.init, u32])
     (by norm_num [AnnotationManager.init, u32])⟩

/-- Counterexample to C8 as stated: the ID counter is a `uint32_t`, so
after `2 ^ 32` allocations it wraps and IDs are reused — a call made after
`2 ^ 32` points have been added allocates ID `0` again, which is not
strictly greater than (nor distinct from) the previously allocated ID `0`. -/
theorem C8_id_reuse_counterexample :
    0 ∈ (AnnotationManager.init.addPointAnnotations
        (List.replicate u32 ⟨0, 0⟩) (List.replicate u32 "") 0).2.2.drop u32 ∧
    ((AnnotationManager.init.addPointAnnotations
        (List.replicate u32 ⟨0, 0⟩) (List.replicate u32 "") 0).1.addPointAnnotations
        [⟨0, 0⟩] [""] 0).2.2.drop 1 = [0] := by
  have hlen : (List.replicate u32 (⟨0, 0⟩ : LatLng)).length = u32 := by
    simp
  constructor
  · have h1 := addPointAnnotations_ids_drop AnnotationManager.init
      (List.replicate u32 ⟨0, 0⟩) (List.replicate u32 "") 0
    rw [hlen] at h1
    rw [h1]
    have h2 : allocatedIDs AnnotationManager.init.nextID_ u32 = List.range' 0 u32 :=
      allocatedIDs_no_wrap u32 0 (by omega)
    rw [h2, List.mem_range'_1]
    have : 0 < u32 := by norm_num [u32]
    omega
  · have h1 := addPointAnnotations_ids_drop
      (AnnotationManager.init.addPointAnnotations
        (List.replicate u32 ⟨0, 0⟩) (List.replicate u32 "") 0).1 [⟨0, 0⟩] [""] 0
    simp only [List.length_cons, List.length_nil] at h1
    rw [h1, addPointAnnotations_counter]
    have hcnt : counterAfter AnnotationManager.init.nextID_
        (List.replicate u32 (⟨0, 0⟩ : LatLng)).length = 0 := by
      rw [hlen]
      show counterAfter 0 u32 = 0
      rw [counterAfter_no_wrap u32 0 (by norm_num [u32]) (by omega)]
      simp
    rw [hcnt]
    rfl

/-- An existing binding survives appending entries on the right. -/
theorem mapFind_append_left {α β : Type} [DecidableEq α] {k : α} {m : List (α × β)}
    {v : β} (m' : List (α × β)) (h : mapFind k m = some v) :
    mapFind k (m ++ m') = some v := by
  induction m with
  | nil => simp [mapFind] at h
  | cons e rest ih =>
    by_cases he : e.1 = k
    · rw [mapFind, if_pos he] at h
      rw [List.cons_append, mapFind, if_pos he]
      exact h
    · rw [mapFind, if_neg he] at h
      rw [List.cons_append, mapFind, if_neg he]
      exact ih h

/-- An existing binding survives `mapEmplace` under any key (`emplace`
never overwrites, and insertion of an absent key only appends). -/
theorem mapFind_mapEmplace {α β : Type} [DecidableEq α] {k k' : α} {m : List (α × β)}
    {v : β} (w : β) (h : mapFind k m = some v) :
    mapFind k (mapEmplace m k' w) = some v := by
  rcases hf : mapFind k' m with - | u
  · rw [mapEmplace, hf]
    exact mapFind_append_left [(k', w)] h
  · rw [mapEmplace, hf]
    exact h

/-- Lookup after `mapUpdate`: the updated key's value is mapped, any other
key's binding is unchanged. -/
theorem mapFind_mapUpdate {α β : Type} [DecidableEq α] (k k' : α) (f : β → β)
    (m : List (α × β)) :
    mapFind k (mapUpdate m k' f) =
      if k' = k then (mapFind k m).map f else mapFind k m := by
  induction m with
  | nil => by_cases h : k' = k <;> simp [mapFind, mapUpdate, h]
  | cons e rest ih =>
    simp only [mapUpdate, List.map_cons] at ih ⊢
    by_cases he : e.1 = k'
    · by_cases hk : k' = k
      · subst hk
        simp [mapFind, he, ih]
      · have hek : ¬ e.1 = k := by rw [he]; exact hk
        simp [mapFind, he, hek, hk, ih]
    · by_cases hk : k' = k
      · subst hk
        simp [mapFind, he, ih]
      · simp [mapFind, he, hk, ih]

/-- Splitting a run of allocations: the IDs of `m + k` allocations are the
IDs of the first `m` followed by the IDs of the remaining `k`, started at
the intermediate counter value. -/
theorem allocatedIDs_append (m : ℕ) :
    ∀ c k, allocatedIDs c (m + k) =
      allocatedIDs c m ++ allocatedIDs (counterAfter c m) k := by
  induction m with
  | zero => intro c k; simp [allocatedIDs, counterAfter]
  | succ m ih =>
    intro c k
    rw [show m + 1 + k = m + k + 1 from by omega]
    rw [show allocatedIDs c (m + k + 1) =
        c :: allocatedIDs ((c + 1) % u32) (m + k) from rfl]
    rw [ih ((c + 1) % u32) k]
    rw [show allocatedIDs c (m + 1) =
        c :: allocatedIDs ((c + 1) % u32) m from rfl]
    rw [show counterAfter c (m + 1) = counterAfter ((c + 1) % u32) m from rfl]
    simp

/-- A run of `2 ^ 32` allocations starting at counter `1` hands out
`1, …, 2 ^ 32 - 1` and then wraps at its last step, handing out ID `0`
again. -/
theorem allocatedIDs_one_u32 :
    allocatedIDs 1 u32 = List.range' 1 (u32 - 1) ++ [0] := by
  have he : (u32 - 1) + 1 = u32 := by norm_num [u32]
  have h1 : allocatedIDs 1 ((u32 - 1) + 1) =
      allocatedIDs 1 (u32 - 1) ++ allocatedIDs (counterAfter 1 (u32 - 1)) 1 :=
    allocatedIDs_append (u32 - 1) 1 1
  have hc : counterAfter 1 (u32 - 1) = 0 := by
    rw [counterAfter_no_wrap (u32 - 1) 1 (by norm_num [u32]) (by norm_num [u32]),
      show 1 + (u32 - 1) = u32 from by norm_num [u32], Nat.mod_self]
  have ha : allocatedIDs 1 (u32 - 1) = List.range' 1 (u32 - 1) :=
    allocatedIDs_no_wrap (u32 - 1) 1 (by norm_num [u32])
  conv_lhs => rw [← he]
  rw [h1, hc, ha]
  rfl

/-- The reused ID `0` occurs twice on the contributing list built by the
wrap trace: once from the very first allocation and once from the wrapped
last one. -/
theorem count_zero_wrap_list : ([0] ++ allocatedIDs 1 u32).count 0 = 2 := by
  rw [allocatedIDs_one_u32, List.count_append, List.count_append]
  have h0 : (List.range' 1 (u32 - 1)).count 0 = 0 := by
    rw [List.count_eq_zero]
    intro hmem
    rw [List.mem_range'_1] at hmem
    omega
  rw [h0]
  decide

/-- The loop body at zoom 0 for the origin when the zoom-0 origin tile
entry already exists, for an arbitrary `tileFeatures` accumulator: the ID
and feature are appended to the existing contributing list and layer. -/
theorem fanStep_o0_any (aid : ℕ) (sp : String) (aff : List TileID) (ids0 : List ℕ)
    (fs : List LiveTileFeature) (tf : List (TileID × List LiveTileFeature)) :
    fanStep aid sp (1 / 2, 1 / 2) 0 1 0 0
        [(⟨0, 0, 0⟩, (ids0, ⟨[(layerID, fs)]⟩))] tf aff =
      ([(⟨0, 0, 0⟩, (ids0 ++ [aid],
          ⟨[(layerID, fs ++ [⟨aid, ⟨0, 0, 0⟩, (2048, 2048), sp⟩])]⟩))],
       mapEmplace tf ⟨0, 0, 0⟩ [⟨aid, ⟨0, 0, 0⟩, (2048, 2048), sp⟩],
       aff ++ [⟨0, 0, 0⟩]) := by
  simp only [fanStep, mapFind, mapUpdate, LiveTile.addFeature,
    List.map_cons, List.map_nil]
  norm_num

/-- Evaluation of `addOnePoint` for an origin point at zoom 0 on a state
whose tile table is exactly the zoom-0 origin tile entry, with arbitrary
counter and annotation table: the allocated ID is the current counter, it
is appended to the tile's contributing list, and the binding of any live
annotation key keeps its bounds (`emplace` never overwrites and the
write-back only replaces `tileFeatures`). -/
theorem addOnePoint_origin_any (c : ℕ) (annos : List (ℕ × AnnotationEntity))
    (ids0 : List ℕ) (fs : List LiveTileFeature) (aff : List TileID) :
    ∃ annos',
      addOnePoint 0 ⟨0, 0⟩ ""
          ⟨c, "", annos, [(⟨0, 0, 0⟩, (ids0, ⟨[(layerID, fs)]⟩))]⟩ aff =
        (⟨(c + 1) % u32, "", annos',
          [(⟨0, 0, 0⟩, (ids0 ++ [c],
            ⟨[(layerID, fs ++ [⟨c, ⟨0, 0, 0⟩, (2048, 2048), ""⟩])]⟩))]⟩,
         aff ++ [⟨0, 0, 0⟩]) ∧
      ∀ a, mapFind 0 annos = some a →
        ∃ a', mapFind 0 annos' = some a' ∧ a'.bounds = a.bounds := by
  have hx : toUint32 ((1 / 2 : ℝ) * ((2 ^ 0 : ℕ) : ℝ)) = 0 := by
    apply toUint32_eq
    · push_cast
      norm_num
    · push_cast
      norm_num
  refine ⟨mapUpdate (mapEmplace annos c (AnnotationEntity.ofPoint ⟨0, 0⟩)) c
    (fun a => ⟨a.type, a.geometry,
      mapEmplace ((mapFind c (mapEmplace annos c
          (AnnotationEntity.ofPoint ⟨0, 0⟩))).getD
        (AnnotationEntity.ofPoint ⟨0, 0⟩)).tileFeatures ⟨0, 0, 0⟩
        [⟨c, ⟨0, 0, 0⟩, (2048, 2048), ""⟩], a.bounds⟩), ?_, ?_⟩
  · simp only [addOnePoint, projectPoint_origin]
    try dsimp only
    simp only [hx, ite_self]
    try dsimp only
    rw [show (2 ^ 0 : ℕ) = 1 from rfl]
    rw [fanout_eq_zero, fanStep_o0_any]
  · intro a ha
    have h1 : mapFind 0 (mapEmplace annos c (AnnotationEntity.ofPoint ⟨0, 0⟩)) =
        some a := mapFind_mapEmplace _ ha
    rw [mapFind_mapUpdate]
    by_cases hc : c = 0
    · rw [if_pos hc, h1]
      exact ⟨_, rfl, rfl⟩
    · rw [if_neg hc, h1]
      exact ⟨a, rfl, rfl⟩

/-- Closed form of the per-point loop for `n` coincident origin points at
zoom 0 over a single existing zoom-0 origin tile entry: the allocated IDs
`allocatedIDs c n` are appended in order to the tile's contributing list,
the counter advances to `counterAfter c n`, and any live annotation
binding keeps its bounds. -/
theorem addPointLoop_origin (n : ℕ) :
    ∀ c annos ids0 fs aff ids,
      ∃ annos' fs',
        addPointLoop 0 (List.replicate n ⟨0, 0⟩) (List.replicate n "")
            ⟨c, "", annos, [(⟨0, 0, 0⟩, (ids0, ⟨[(layerID, fs)]⟩))]⟩ aff ids =
          (⟨counterAfter c n, "", annos',
            [(⟨0, 0, 0⟩, (ids0 ++ allocatedIDs c n, ⟨[(layerID, fs')]⟩))]⟩,
           aff ++ List.replicate n ⟨0, 0, 0⟩, ids ++ allocatedIDs c n) ∧
        ∀ a, mapFind 0 annos = some a →
          ∃ a', mapFind 0 annos' = some a' ∧ a'.bounds = a.bounds := by
  induction n with
  | zero =>
    intro c annos ids0 fs aff ids
    refine ⟨annos, fs, ?_, ?_⟩
    · simp [addPointLoop, allocatedIDs, counterAfter]
    · intro a ha
      exact ⟨a, ha, rfl⟩
  | succ n ih =>
    intro c annos ids0 fs aff ids
    obtain ⟨annos1, h1, hp1⟩ := addOnePoint_origin_any c annos ids0 fs aff
    obtain ⟨annos2, fs2, h2, hp2⟩ := ih ((c + 1) % u32) annos1 (ids0 ++ [c])
      (fs ++ [⟨c, ⟨0, 0, 0⟩, (2048, 2048), ""⟩]) (aff ++ [⟨0, 0, 0⟩]) (ids ++ [c])
    refine ⟨annos2, fs2, ?_, ?_⟩
    · simp only [List.replicate_succ]
      simp only [addPointLoop, List.headD_cons, List.tail_cons]
      rw [h1]
      try dsimp only
      rw [h2]
      simp [counterAfter, allocatedIDs, List.append_assoc]
    · intro a ha
      obtain ⟨a1, ha1, hb1⟩ := hp1 a ha
      obtain ⟨a2, ha2, hb2⟩ := hp2 a1 ha1
      exact ⟨a2, ha2, hb2.trans hb1⟩

/-- Unfolding of the per-point loop on a nonempty points list (stated with
a symbolic tail, so rewriting with it never unrolls the whole list). -/
theorem addPointLoop_cons (Z : ℕ) (pt : LatLng) (pts : List LatLng)
    (syms : List String) (st : AnnotationManager) (aff : List TileID)
    (ids : List ℕ) :
    addPointLoop Z (pt :: pts) syms st aff ids =
      addPointLoop Z pts syms.tail (addOnePoint Z pt (syms.headD "") st aff).1
        (addOnePoint Z pt (syms.headD "") st aff).2 (ids ++ [st.nextID_]) := rfl

/-- After adding `2 ^ 32 + 1` coincident origin points at zoom 0 to a
fresh manager, the tile table is the single zoom-0 origin tile whose
contributing list starts and ends with the reused ID `0` — once from the
first point, once from the wrapped allocation of the last point — while
annotation `0` is still a live binding with its degenerate origin bounds
(the wrapped `emplace` fails and leaves the original entry). -/
theorem add_wrap_origin :
    ∃ annosW fsW aW,
      (AnnotationManager.init.addPointAnnotations
          (List.replicate (u32 + 1) ⟨0, 0⟩) (List.replicate (u32 + 1) "") 0).1 =
        ⟨counterAfter 1 u32, "", annosW,
          [(⟨0, 0, 0⟩, ([0] ++ allocatedIDs 1 u32, ⟨[(layerID, fsW)]⟩))]⟩ ∧
      mapFind 0 annosW = some aW ∧ aW.bounds = ⟨⟨0, 0⟩, ⟨0, 0⟩⟩ := by
  have hlen : (List.replicate (u32 + 1) (⟨0, 0⟩ : LatLng)).length = u32 + 1 := by
    simp
  obtain ⟨annos2, fs2, h2, hp2⟩ := addPointLoop_origin u32 1
    [(0, ⟨AnnotationType.Point, [[⟨0, 0⟩]],
      [(⟨0, 0, 0⟩, [⟨0, ⟨0, 0, 0⟩, (2048, 2048), ""⟩])], ⟨⟨0, 0⟩, ⟨0, 0⟩⟩⟩)]
    [0] [⟨0, ⟨0, 0, 0⟩, (2048, 2048), ""⟩] [⟨0, 0, 0⟩]
    (List.replicate (u32 + 1) 0 ++ [0])
  have hfind : mapFind 0
      [((0 : ℕ), (⟨AnnotationType.Point, [[⟨0, 0⟩]],
        [(⟨0, 0, 0⟩, [⟨0, ⟨0, 0, 0⟩, (2048, 2048), ""⟩])],
        ⟨⟨0, 0⟩, ⟨0, 0⟩⟩⟩ : AnnotationEntity))] =
      some ⟨AnnotationType.Point, [[⟨0, 0⟩]],
        [(⟨0, 0, 0⟩, [⟨0, ⟨0, 0, 0⟩, (2048, 2048), ""⟩])], ⟨⟨0, 0⟩, ⟨0, 0⟩⟩⟩ := by
    simp [mapFind]
  obtain ⟨a2, ha2, hb2⟩ := hp2 _ hfind
  refine ⟨annos2, fs2, a2, ?_, ha2, hb2⟩
  rw [AnnotationManager.addPointAnnotations, hlen]
  rw [show List.replicate (u32 + 1) (⟨0, 0⟩ : LatLng) =
      ⟨0, 0⟩ :: List.replicate u32 ⟨0, 0⟩ from rfl,
    show List.replicate (u32 + 1) ("" : String) =
      "" :: List.replicate u32 "" from rfl,
    show AnnotationManager.init = (⟨0, "", [], []⟩ : AnnotationManager) from rfl]
  rw [addPointLoop_cons]
  simp only [List.headD_cons, List.tail_cons]
  rw [addOnePoint_origin_first]
  try dsimp only
  rw [h2]

/-- The northwest corner tile of the query box `sw = (-1,-1)`,
`ne = (1,1)` at zoom 0 is the unique zoom-0 tile `(0, 0, 0)`. -/
theorem nwTile_eval_z0 : nwTileOf ⟨⟨-1, -1⟩, ⟨1, 1⟩⟩ 0 = ⟨0, 0, 0⟩ := by
  have hpi := Real.pi_gt_three
  have hpi0 := Real.pi_pos
  have hL0 := mercLog_pos
  have hL1 := mercLog_lt
  have hdiv : 0.25 * mercLog / Real.pi < 1 / 24 := by
    rw [div_lt_iff₀ hpi0]
    nlinarith
  have hdiv0 : 0 < 0.25 * mercLog / Real.pi := by positivity
  have hx : toUint32 ((179 / 360 : ℝ) * ((2 ^ 0 : ℕ) : ℝ)) = 0 := by
    apply toUint32_eq
    · push_cast
      norm_num
    · push_cast
      norm_num
  have hy : toUint32 ((0.5 - 0.25 * mercLog / Real.pi) * ((2 ^ 0 : ℕ) : ℝ)) = 0 := by
    apply toUint32_eq
    · push_cast
      nlinarith
    · push_cast
      nlinarith
  unfold nwTileOf
  rw [projectPoint_neg_one, projectPoint_one]
  dsimp only
  rw [hx, hy]

/-- The southeast corner tile of the same query box at zoom 0 is also
`(0, 0, 0)`: the zoom-0 tile of the origin lies on the query rectangle's
boundary, so the query takes the bounds-filter branch. -/
theorem seTile_eval_z0 : seTileOf ⟨⟨-1, -1⟩, ⟨1, 1⟩⟩ 0 = ⟨0, 0, 0⟩ := by
  have hpi := Real.pi_gt_three
  have hpi0 := Real.pi_pos
  have hL0 := mercLog_pos
  have hL1 := mercLog_lt
  have hdiv : 0.25 * mercLog / Real.pi < 1 / 24 := by
    rw [div_lt_iff₀ hpi0]
    nlinarith
  have hdiv0 : 0 < 0.25 * mercLog / Real.pi := by positivity
  have hx : toUint32 ((181 / 360 : ℝ) * ((2 ^ 0 : ℕ) : ℝ)) = 0 := by
    apply toUint32_eq
    · push_cast
      norm_num
    · push_cast
      norm_num
  have hy : toUint32 ((0.5 + 0.25 * mercLog / Real.pi) * ((2 ^ 0 : ℕ) : ℝ)) = 0 := by
    apply toUint32_eq
    · push_cast
      nlinarith
    · push_cast
      nlinarith
  unfold seTileOf
  rw [projectPoint_neg_one, projectPoint_one]
  dsimp only
  rw [hx, hy]

/-- Counterexample to claim C10 as stated: an index populated only through
`addPointAnnotations` for which a query returns an ID twice.  Adding
`2 ^ 32 + 1` coincident origin points at zoom 0 wraps the `uint32_t`
counter, so the last point reuses ID `0`; the code's `emplace` of the
reused ID fails, but the per-zoom loop still `push_back`s `0` a second
time onto the same zoom-0 tile's contributing list, and the query over
`sw = (-1,-1)`, `ne = (1,1)` (whose boundary filter accepts the still-live
annotation `0`) returns ID `0` twice, so its result is not duplicate-free. -/
theorem C10_duplicate_query_counterexample :
    2 ≤ ((AnnotationManager.init.addPointAnnotations
        (List.replicate (u32 + 1) ⟨0, 0⟩) (List.replicate (u32 + 1) "")
        0).1.getAnnotationsInBounds ⟨⟨-1, -1⟩, ⟨1, 1⟩⟩ 0).count 0 ∧
    ¬ ((AnnotationManager.init.addPointAnnotations
        (List.replicate (u32 + 1) ⟨0, 0⟩) (List.replicate (u32 + 1) "")
        0).1.getAnnotationsInBounds ⟨⟨-1, -1⟩, ⟨1, 1⟩⟩ 0).Nodup := by
  obtain ⟨annosW, fsW, aW, hstate, hfind, hbounds⟩ := add_wrap_origin
  have hq : (AnnotationManager.init.addPointAnnotations
      (List.replicate (u32 + 1) ⟨0, 0⟩) (List.replicate (u32 + 1) "")
      0).1.getAnnotationsInBounds ⟨⟨-1, -1⟩, ⟨1, 1⟩⟩ 0 =
      ([0] ++ allocatedIDs 1 u32).filter (boundsFilter annosW ⟨⟨-1, -1⟩, ⟨1, 1⟩⟩) := by
    rw [hstate]
    unfold AnnotationManager.getAnnotationsInBounds
    rw [nwTile_eval_z0, seTile_eval_z0]
    simp only [List.foldl_cons]
    simp only [List.foldl_nil]
    simp only [List.nil_append]
    unfold queryContribution
    try dsimp only
    split_ifs with h1 h2 h3
    · exact absurd h3.1 (lt_irrefl 0)
    · rfl
    · exact absurd ⟨le_refl 0, le_refl 0, le_refl 0, le_refl 0⟩ h2
    · exact absurd rfl h1
  have hfilter : boundsFilter annosW ⟨⟨-1, -1⟩, ⟨1, 1⟩⟩ 0 = true := by
    unfold boundsFilter
    simp only [hfind]
    rw [decide_eq_true_eq, hbounds]
    norm_num
  have hcount : ((AnnotationManager.init.addPointAnnotations
      (List.replicate (u32 + 1) ⟨0, 0⟩) (List.replicate (u32 + 1) "")
      0).1.getAnnotationsInBounds ⟨⟨-1, -1⟩, ⟨1, 1⟩⟩ 0).count 0 = 2 := by
    rw [hq, List.count_filter hfilter, count_zero_wrap_list]
  constructor
  · rw [hcount]
  · intro hnd
    rw [List.nodup_iff_count_le_one] at hnd
    have h := hnd 0
    rw [hcount] at h
    omega

end Mbgl
